import Mathlib

/-!
# rubinius: `vm/llvm/jit_operations.hpp`

A shallow embedding of `rubinius::JITOperations`, the layer of the JIT that turns
VM concepts (operand stack, tagged fixnums, object slots, write barrier) into
LLVM instructions, together with a small-step meaning for the instructions it
emits.

* The emitter is explicit state passing over `JITOperations`; every member
  function of the class is a function here, keeping its name.
* The instructions are data (`Inst`); `step`/`exec` give a straight-line
  block its meaning on a `Machine`.
* Machine integers are naturals reduced modulo `2 ^ width`; C++ `int`
  parameters are integers wrapped to 32 bits.
-/

namespace rubinius

/-! ## Backend types and values -/

/-- The part of `llvm::Type` the class uses: `iN`, pointers, named structs. -/
inductive Ty where
  | int (bits : Nat)
  | ptr (elem : Ty)
  | struct (name : String)
  deriving DecidableEq, Repr

/-- Pointer width in bits: 64 when `__LP64__` is set, 32 otherwise. -/
def ptrBits (lp64 : Bool) : Nat := if lp64 then 64 else 32

/-- The C++ `sizeof(Object*)`. -/
def sizeofObjectPtr (lp64 : Bool) : Nat := if lp64 then 8 else 4

/-- Width in bits of a first-class value of the type (structs are never first-class here). -/
def Ty.bits (lp64 : Bool) : Ty → Nat
  | .int b => b
  | .ptr _ => ptrBits lp64
  | .struct _ => 0

/-- Is the type a pointer type (`isa<PointerType>`). -/
def Ty.isPtr : Ty → Bool
  | .ptr _ => true
  | _ => false

/-- The pointee of a pointer type, `cast<PointerType>(t)->getElementType()`;
`none` when `t` is not a pointer. -/
def Ty.getElementType : Ty → Option Ty
  | .ptr e => some e
  | _ => none

/-- The part of `llvm::Value*` the class handles. `inst` is the result of the
instruction with that number, `arg` a function argument, `slot` the address of
a function-local variable. -/
inductive Value where
  | const (ty : Ty) (n : Int)
  | inst (id : Nat) (ty : Ty)
  | arg (id : Nat) (ty : Ty)
  | slot (id : Nat) (ty : Ty)
  deriving DecidableEq, Repr

/-- The static type, `Value::getType()`. -/
def Value.getType : Value → Ty
  | .const ty _ => ty
  | .inst _ ty => ty
  | .arg _ ty => ty
  | .slot _ ty => ty

/-- Cast opcodes used by the class. -/
inductive CastOp where
  | BitCast | PtrToInt | IntToPtr | ZExt | SExt | Trunc
  deriving DecidableEq, Repr

/-- Binary opcodes used by the class. -/
inductive BinOp where
  | And | Or | Shl | LShr
  deriving DecidableEq, Repr

/-- Integer comparison predicates used by the class. -/
inductive Predicate where
  | ICMP_EQ | ICMP_SLT
  deriving DecidableEq, Repr

/-- A basic block handle (`llvm::BasicBlock*`). -/
abbrev BasicBlock := Nat

/-- The instructions the class creates. `id` numbers the result. -/
inductive Inst where
  | Load (id : Nat) (ptr : Value) (name : String)
  | Store (val ptr : Value) (isVolatile : Bool)
  | GetElementPtr (id : Nat) (ptr : Value) (idx : List Value) (name : String)
  | Cast (id : Nat) (op : CastOp) (v : Value) (ty : Ty) (name : String)
  | Binary (id : Nat) (op : BinOp) (a b : Value) (name : String)
  | ICmp (id : Nat) (pred : Predicate) (a b : Value) (name : String)
  | Br (dest : BasicBlock)
  | CondBr (ifTrue ifFalse : BasicBlock) (cond : Value)
  | Call (id : Nat) (callee : String) (ret : Ty) (params : List Ty) (args : List Value)
      (name : String)
  deriving DecidableEq, Repr

/-- A named struct of the module: element types with the byte offset the
target layout gives each, and the allocation size. -/
structure StructLayout where
  fields : List (Ty × Nat)
  size : Nat
  deriving DecidableEq, Repr

/-- The part of `llvm::Module` the class reads: the type symbol table. -/
structure Module where
  types : List (String × StructLayout)
  deriving DecidableEq, Repr

/-- Look a struct up by its full name. -/
def Module.layout (m : Module) (name : String) : Option StructLayout :=
  (m.types.find? (fun p => p.1 == name)).map (fun p => p.2)

/-- Modelled from the spec: `Module::getTypeByName` is backend code outside the
file, by which the class can "look up a named struct type within a module";
the result is the named type, or `none`, the null pointer, for a name the
type table lacks. -/
def Module.getTypeByName (m : Module) (name : String) : Option Ty :=
  (m.layout name).map (fun _ => Ty.struct name)

/-- The part of `llvm::Function` under construction: first argument, the
blocks created in it (a handle is the creation index), the instruction list of
every block and the number of the next instruction result. -/
structure Function where
  arg_begin : Value
  blocks : List String
  body : BasicBlock → List Inst
  nextValue : Nat

/-- Append an instruction at the end of a block (the `InsertAtEnd` constructors). -/
def Function.append (f : Function) (block : BasicBlock) (i : Inst) : Function :=
  { f with body := fun b => if b = block then f.body b ++ [i] else f.body b }

/-- Handle of the compiler state object; never inspected here. -/
structure LLVMState where
  id : Nat
  deriving DecidableEq, Repr

/-- Ways the emitter aborts. -/
inductive Fatal where
  | assertion (cond : String)
  | nullType (name : String)
  deriving DecidableEq, Repr

/-- The C++ `int`: wrap an integer to `w` bits, two's complement. -/
def wrapInt (w : Nat) (x : Int) : Int := (x + 2 ^ (w - 1)) % 2 ^ w - 2 ^ (w - 1)

/-- Negation of a C++ `int`. -/
def negInt (x : Int) : Int := wrapInt 32 (-x)

/-- Conversion of a C++ `int` to `size_t`. -/
def toSizeT (lp64 : Bool) (x : Int) : Nat := (x % 2 ^ ptrBits lp64).toNat

/-! ## The class -/

/-- The fields of `class JITOperations`. -/
structure JITOperations where
  stack_top_ : Value
  ls_ : LLVMState
  block_ : BasicBlock
  module_ : Module
  function_ : Function
  vm_ : Value
  IntPtrTy : Ty
  ObjType : Ty
  ObjArrayTy : Ty
  Int31Ty : Ty
  VMTy : Ty
  CallFrameTy : Ty

/-- Modelled from the spec: `PointerType::getUnqual` on the result of the type
lookup is backend code outside the file; for a name missing from the type table
"the operation fails fatally". -/
def getUnqual (name : String) : Option Ty → Except Fatal Ty
  | some t => .ok (Ty.ptr t)
  | none => .error (Fatal.nullType name)

/-- The member `ptr_type`, on the module alone (the constructor calls it before the fields exist). -/
def Module.ptr_type (m : Module) (name : String) : Except Fatal Ty :=
  let full_name := "struct.rubinius::" ++ name
  getUnqual full_name (m.getTypeByName full_name)

/-- The member `ptr_type`. -/
def JITOperations.ptr_type (j : JITOperations) (name : String) : Except Fatal Ty :=
  j.module_.ptr_type name

/-- The member `type`: the lookup result itself, `none` being the null pointer. -/
def JITOperations.type (j : JITOperations) (name : String) : Option Ty :=
  let full_name := "struct.rubinius::" ++ name
  j.module_.getTypeByName full_name

/-- The constructor. `lp64` is the `__LP64__` build flag. -/
def JITOperations.new (lp64 : Bool) (ls : LLVMState) (mod : Module) (top : Value)
    (start : BasicBlock) (func : Function) : Except Fatal JITOperations := do
  let IntPtrTy := if lp64 then Ty.int 64 else Ty.int 32
  let ObjType ← mod.ptr_type "Object"
  let ObjArrayTy := Ty.ptr ObjType
  let Int31Ty := Ty.int 31
  let VMTy ← mod.ptr_type "VM"
  let CallFrameTy ← mod.ptr_type "CallFrame"
  pure { stack_top_ := top, ls_ := ls, block_ := start, module_ := mod, function_ := func,
         vm_ := func.arg_begin, IntPtrTy := IntPtrTy, ObjType := ObjType,
         ObjArrayTy := ObjArrayTy, Int31Ty := Int31Ty, VMTy := VMTy,
         CallFrameTy := CallFrameTy }

/-- Accessor `state()`. -/
def JITOperations.state (j : JITOperations) : LLVMState := j.ls_

/-- Accessor `vm()`. -/
def JITOperations.vm (j : JITOperations) : Value := j.vm_

/-- Create an instruction with a result at the end of `block`; the handle of
the result has type `ty`. -/
def JITOperations.emit (j : JITOperations) (block : BasicBlock) (mk : Nat → Inst) (ty : Ty) :
    Value × JITOperations :=
  let id := j.function_.nextValue
  (Value.inst id ty,
   { j with function_ := { j.function_.append block (mk id) with nextValue := id + 1 } })

/-- Create an instruction without a result at the end of `block`. -/
def JITOperations.emitVoid (j : JITOperations) (block : BasicBlock) (i : Inst) : JITOperations :=
  { j with function_ := j.function_.append block i }

/-- Element type a `getelementptr` reaches: the first index steps over the
pointer, each further one selects a struct element by constant index. -/
def gepWalk (m : Module) : Ty → List Value → Option Ty
  | t, [] => some t
  | .struct s, (.const _ k) :: rest =>
    match m.layout s with
    | some l =>
      match l.fields.get? k.toNat with
      | some (ft, _) => gepWalk m ft rest
      | none => none
    | none => none
  | _, _ :: _ => none

/-- Result type of a `getelementptr`; `none` when the backend rejects the indices. -/
def gepType (m : Module) (ty : Ty) (idx : List Value) : Option Ty :=
  match ty, idx with
  | .ptr e, _ :: rest => (gepWalk m e rest).map Ty.ptr
  | _, _ => none

/-- Type of a handle the backend would have rejected; instructions using it have no meaning. -/
def Ty.invalid : Ty := Ty.struct ""

/-- The backend call `new LoadInst(ptr, name, block)`. -/
def JITOperations.LoadInst (j : JITOperations) (ptr : Value) (name : String)
    (block : BasicBlock) : Value × JITOperations :=
  j.emit block (fun id => Inst.Load id ptr name) (ptr.getType.getElementType.getD Ty.invalid)

/-- The backend call `new StoreInst(val, ptr, false, block)`. -/
def JITOperations.StoreInst (j : JITOperations) (val ptr : Value) (block : BasicBlock) :
    JITOperations :=
  j.emitVoid block (Inst.Store val ptr false)

/-- The backend call `GetElementPtrInst::Create(ptr, idx, idx+n, name, block)`. -/
def JITOperations.GetElementPtrInst (j : JITOperations) (ptr : Value) (idx : List Value)
    (name : String) (block : BasicBlock) : Value × JITOperations :=
  j.emit block (fun id => Inst.GetElementPtr id ptr idx name)
    ((gepType j.module_ ptr.getType idx).getD Ty.invalid)

/-- The backend call `CastInst::Create(op, v, ty, name, block)`. -/
def JITOperations.CastInst (j : JITOperations) (op : CastOp) (v : Value) (ty : Ty)
    (name : String) (block : BasicBlock) : Value × JITOperations :=
  j.emit block (fun id => Inst.Cast id op v ty name) ty

/-- The backend call `BinaryOperator::Create<op>(a, b, name, block)`. -/
def JITOperations.BinaryOperator (j : JITOperations) (op : BinOp) (a b : Value)
    (name : String) (block : BasicBlock) : Value × JITOperations :=
  j.emit block (fun id => Inst.Binary id op a b name) a.getType

/-- The backend call `new ICmpInst(pred, a, b, name, block)`. -/
def JITOperations.ICmpInst (j : JITOperations) (pred : Predicate) (a b : Value)
    (name : String) (block : BasicBlock) : Value × JITOperations :=
  j.emit block (fun id => Inst.ICmp id pred a b name) (Ty.int 1)

/-- The member `ptr_gep`. -/
def JITOperations.ptr_gep (j : JITOperations) (ptr : Value) (which : Int) (name : String)
    (block : BasicBlock) : Value × JITOperations :=
  let idx := [Value.const (Ty.int 32) 0, Value.const (Ty.int 32) which]
  j.GetElementPtrInst ptr idx name block

/-- The member `upcast`. -/
def JITOperations.upcast (j : JITOperations) (rec : Value) (name : String) :
    Except Fatal (Value × JITOperations) := do
  let type ← j.ptr_type name
  pure (j.CastInst CastOp.BitCast rec type "upcast" j.block_)

/-- The member `create_gep`. -/
def JITOperations.create_gep (j : JITOperations) (rec : Value) (idx : List Value)
    (name : String) : Value × JITOperations :=
  j.GetElementPtrInst rec idx name j.block_

/-- The member `create_load`; the source passes the fixed name "flags", not its argument. -/
def JITOperations.create_load (j : JITOperations) (ptr : Value) (_name : String) :
    Value × JITOperations :=
  j.LoadInst ptr "flags" j.block_

/-- The member `create_store`. -/
def JITOperations.create_store (j : JITOperations) (val ptr : Value) : JITOperations :=
  j.StoreInst val ptr j.block_

/-- The member `create_icmp`. -/
def JITOperations.create_icmp (j : JITOperations) (kind : Predicate) (left right : Value)
    (name : String) : Value × JITOperations :=
  j.ICmpInst kind left right name j.block_

/-- The member `create_equal`. -/
def JITOperations.create_equal (j : JITOperations) (left right : Value) (name : String) :
    Value × JITOperations :=
  j.create_icmp Predicate.ICMP_EQ left right name

/-- The member `create_less_than`. -/
def JITOperations.create_less_than (j : JITOperations) (left right : Value) (name : String) :
    Value × JITOperations :=
  j.create_icmp Predicate.ICMP_SLT left right name

/-- The member `create_and`. -/
def JITOperations.create_and (j : JITOperations) (left right : Value) (name : String) :
    Value × JITOperations :=
  j.BinaryOperator BinOp.And left right name j.block_

/-- The member `create_conditional_branch`. -/
def JITOperations.create_conditional_branch (j : JITOperations) (if_true if_false : BasicBlock)
    (cmp : Value) : JITOperations :=
  j.emitVoid j.block_ (Inst.CondBr if_true if_false cmp)

/-- The member `create_branch`. -/
def JITOperations.create_branch (j : JITOperations) (where_ : BasicBlock) : JITOperations :=
  j.emitVoid j.block_ (Inst.Br where_)

/-- The member `check_type_bits`. -/
def JITOperations.check_type_bits (j : JITOperations) (obj : Value) (type : Int) :
    Value × JITOperations :=
  let flag_idx := [Value.const (Ty.int 32) 0, Value.const (Ty.int 32) 0,
                   Value.const (Ty.int 32) 0, Value.const (Ty.int 32) 0]
  let (gep, j) := j.create_gep obj flag_idx "flag_pos"
  let (flags, j) := j.create_load gep "flags"
  let mask := Value.const (Ty.int 32) ((1 <<< 8) - 1)
  let (obj_type, j) := j.BinaryOperator BinOp.And flags mask "mask" j.block_
  let tag := Value.const (Ty.int 32) type
  j.ICmpInst Predicate.ICMP_EQ obj_type tag "is_tuple" j.block_

/-- The member `current_block`. -/
def JITOperations.current_block (j : JITOperations) : BasicBlock := j.block_

/-- The member `new_block`: `BasicBlock::Create(name, function_)`. -/
def JITOperations.new_block (j : JITOperations) (name : String) : BasicBlock × JITOperations :=
  (j.function_.blocks.length,
   { j with function_ := { j.function_ with blocks := j.function_.blocks ++ [name] } })

/-- The member `set_block`. -/
def JITOperations.set_block (j : JITOperations) (bb : BasicBlock) : JITOperations :=
  { j with block_ := bb }

/-- The member `stack_ptr`. `block` is `none` for the C++ default `NULL`. -/
def JITOperations.stack_ptr (j : JITOperations) (block : Option BasicBlock) :
    Value × JITOperations :=
  let block := block.getD j.block_
  j.LoadInst j.stack_top_ "stack_ptr" block

/-- The member `set_stack_ptr`. -/
def JITOperations.set_stack_ptr (j : JITOperations) (pos : Value) (block : Option BasicBlock) :
    JITOperations :=
  let block := block.getD j.block_
  j.StoreInst pos j.stack_top_ block

/-- The member `stack_position`. -/
def JITOperations.stack_position (j : JITOperations) (amount : Int)
    (block : Option BasicBlock) : Value × JITOperations :=
  let block := block.getD j.block_
  if amount = 0 then j.stack_ptr (some block)
  else
    let idx := Value.const (Ty.int 32) amount
    let (sp, j) := j.stack_ptr (some block)
    j.GetElementPtrInst sp [idx] "stack_pos" block

/-- The member `stack_back_position`. -/
def JITOperations.stack_back_position (j : JITOperations) (back : Int)
    (block : Option BasicBlock) : Value × JITOperations :=
  let block := block.getD j.block_
  j.stack_position (negInt back) (some block)

/-- The member `stack_objects`. -/
def JITOperations.stack_objects (j : JITOperations) (count : Int)
    (block : Option BasicBlock) : Value × JITOperations :=
  let block := block.getD j.block_
  j.stack_position (negInt (wrapInt 32 (count - 1))) (some block)

/-- The member `stack_ptr_adjust`. -/
def JITOperations.stack_ptr_adjust (j : JITOperations) (amount : Int)
    (block : Option BasicBlock) : Value × JITOperations :=
  let block := block.getD j.block_
  let (pos, j) := j.stack_position amount (some block)
  let j := j.set_stack_ptr pos (some block)
  (pos, j)

/-- The member `stack_remove`. -/
def JITOperations.stack_remove (j : JITOperations) (count : Int) : JITOperations :=
  (j.stack_ptr_adjust (negInt count) none).2

/-- The member `stack_push`. -/
def JITOperations.stack_push (j : JITOperations) (val : Value) (block : Option BasicBlock) :
    JITOperations :=
  let block := block.getD j.block_
  let (stack_pos, j) := j.stack_ptr_adjust 1 (some block)
  if some val.getType = stack_pos.getType.getElementType then
    j.StoreInst val stack_pos block
  else
    let (cst, j) := j.CastInst CastOp.BitCast val j.ObjType "casted" block
    j.StoreInst cst stack_pos block

/-- The member `stack_back`. -/
def JITOperations.stack_back (j : JITOperations) (back : Int) (block : Option BasicBlock) :
    Value × JITOperations :=
  let block := block.getD j.block_
  let (pos, j) := j.stack_back_position back (some block)
  j.LoadInst pos "stack_load" block

/-- The member `stack_top`. -/
def JITOperations.stack_top (j : JITOperations) (block : Option BasicBlock) :
    Value × JITOperations :=
  let block := block.getD j.block_
  j.stack_back 0 (some block)

/-- The member `stack_pop`. -/
def JITOperations.stack_pop (j : JITOperations) (block : Option BasicBlock) :
    Value × JITOperations :=
  let block := block.getD j.block_
  let (val, j) := j.stack_back 0 (some block)
  let (_, j) := j.stack_ptr_adjust (-1) (some block)
  (val, j)

/-- The member `constant`; `obj` is the address `(intptr_t)obj`. -/
def JITOperations.constant (j : JITOperations) (obj : Int) (block : Option BasicBlock) :
    Value × JITOperations :=
  let block := block.getD j.block_
  j.CastInst CastOp.IntToPtr (Value.const j.IntPtrTy obj) j.ObjType "cast_to_obj" block

/-- The member `cast_int`. -/
def JITOperations.cast_int (j : JITOperations) (obj : Value) (block : Option BasicBlock) :
    Value × JITOperations :=
  let block := block.getD j.block_
  j.CastInst CastOp.PtrToInt obj j.IntPtrTy "cast" block

/-- The backend query `Type::getPrimitiveSizeInBits`: pointers and structs have none. -/
def Ty.getPrimitiveSizeInBits : Ty → Nat
  | .int b => b
  | _ => 0

/-- The backend call `CastInst::CreateIntegerCast(c, ty, isSigned, name, block)`. -/
def JITOperations.CreateIntegerCast (j : JITOperations) (c : Value) (ty : Ty)
    (isSigned : Bool) (name : String) (block : BasicBlock) : Value × JITOperations :=
  let srcBits := c.getType.getPrimitiveSizeInBits
  let dstBits := ty.getPrimitiveSizeInBits
  let opcode :=
    if srcBits = dstBits then CastOp.BitCast
    else if srcBits > dstBits then CastOp.Trunc
    else if isSigned then CastOp.SExt else CastOp.ZExt
  j.CastInst opcode c ty name block

/-- The backend call `CastInst::CreateZExtOrBitCast(s, ty, name, block)`. -/
def JITOperations.CreateZExtOrBitCast (j : JITOperations) (s : Value) (ty : Ty)
    (name : String) (block : BasicBlock) : Value × JITOperations :=
  if s.getType.getPrimitiveSizeInBits = ty.getPrimitiveSizeInBits then
    j.CastInst CastOp.BitCast s ty name block
  else
    j.CastInst CastOp.ZExt s ty name block

/-- The member `tag_strip`. `type` is `none` for the C++ default `NULL`. -/
def JITOperations.tag_strip (j : JITOperations) (obj : Value) (block : Option BasicBlock)
    (type : Option Ty) : Value × JITOperations :=
  let block := block.getD j.block_
  let type := type.getD j.Int31Ty
  let (i, j) := j.CastInst CastOp.PtrToInt obj (Ty.int 32) "as_int" block
  let (more, j) := j.BinaryOperator BinOp.LShr i (Value.const (Ty.int 32) 1) "lshr" block
  j.CreateIntegerCast more type true "stripped" block

/-- The member `tag_strip32`. -/
def JITOperations.tag_strip32 (j : JITOperations) (obj : Value) : Value × JITOperations :=
  let (i, j) := j.CastInst CastOp.PtrToInt obj (Ty.int 32) "as_int" j.block_
  j.BinaryOperator BinOp.LShr i (Value.const (Ty.int 32) 1) "lshr" j.block_

/-- The member `fixnum_tag`. -/
def JITOperations.fixnum_tag (j : JITOperations) (obj : Value) (block : Option BasicBlock) :
    Value × JITOperations :=
  let block := block.getD j.block_
  let (obj32, j) := j.CreateZExtOrBitCast obj (Ty.int 32) "as_32bit" block
  let one := Value.const (Ty.int 32) 1
  let (more, j) := j.BinaryOperator BinOp.Shl obj32 one "shl" block
  let (tagged, j) := j.BinaryOperator BinOp.Or more one "or" block
  j.CastInst CastOp.IntToPtr tagged j.ObjType "as_obj" block

/-- Modelled from the spec: the runtime constant `TAG_FIXNUM` is defined outside
the file; a small integer carries "tag bit 1". -/
def TAG_FIXNUM : Int := 1

/-- Modelled from the spec: the runtime constant `TAG_FIXNUM_MASK` is defined
outside the file; the tag is the one low "tag bit". -/
def TAG_FIXNUM_MASK : Int := 1

/-- The member `check_if_fixnum`. -/
def JITOperations.check_if_fixnum (j : JITOperations) (val : Value) : Value × JITOperations :=
  let fix_mask := Value.const j.IntPtrTy TAG_FIXNUM_MASK
  let fix_tag := Value.const j.IntPtrTy TAG_FIXNUM
  let (lint, j) := j.cast_int val none
  let (masked, j) := j.BinaryOperator BinOp.And lint fix_mask "masked" j.block_
  j.ICmpInst Predicate.ICMP_EQ masked fix_tag "is_fixnum" j.block_

/-- The member `get_tuple_size`; `tuple_full_size` is the runtime constant
`offset::tuple_full_size`, defined outside the file. -/
def JITOperations.get_tuple_size (j : JITOperations) (tuple_full_size : Int) (tup : Value) :
    Value × JITOperations :=
  let idx := [Value.const (Ty.int 32) 0, Value.const (Ty.int 32) tuple_full_size]
  let (pos, j) := j.create_gep tup idx "table_size_pos"
  j.create_load pos "table_size"

/-- The member `get_object_slot`. The assertion and the index are computed in
`size_t`, as the usual arithmetic conversions make them. The emitter state is
returned also when the assertion fails, to show what had been emitted. -/
def JITOperations.get_object_slot (lp64 : Bool) (j : JITOperations) (obj : Value)
    (offset : Int) : Except Fatal Value × JITOperations :=
  if toSizeT lp64 offset % sizeofObjectPtr lp64 = 0 then
    let (cst, j) := j.CastInst CastOp.BitCast obj (Ty.ptr j.ObjType) "obj_array" j.block_
    let idx2 := [Value.const (Ty.int 32) (toSizeT lp64 offset / sizeofObjectPtr lp64 : Nat)]
    let (pos, j) := j.create_gep cst idx2 "field_pos"
    let (field, j) := j.create_load pos "field"
    (.ok field, j)
  else
    (.error (Fatal.assertion "offset % sizeof(Object*) == 0"), j)

/-- Modelled from the spec: the helper class `Signature` is defined outside the
file; it is "a call-signature builder": a return type and ordered parameter types. -/
structure Signature where
  ls : LLVMState
  ret : Ty
  params : List Ty

/-- Modelled from the spec: `Signature::operator<<` adds the next parameter type. -/
def Signature.push (s : Signature) (t : Ty) : Signature :=
  { s with params := s.params ++ [t] }

/-- Modelled from the spec: `Signature::call` "emits a call to the fixed external
runtime entry point" named `name`, with the first `size` of `args`, at the end of `block`. -/
def Signature.call (s : Signature) (j : JITOperations) (name : String) (args : List Value)
    (size : Nat) (inst_name : String) (block : BasicBlock) : Value × JITOperations :=
  j.emit block (fun id => Inst.Call id name s.ret s.params (args.take size) inst_name) s.ret

/-- The member `write_barrier`. -/
def JITOperations.write_barrier (j : JITOperations) (obj val : Value) : JITOperations :=
  let wb : Signature := { ls := j.ls_, ret := j.ObjType, params := [] }
  let wb := wb.push j.VMTy
  let wb := wb.push j.ObjType
  let wb := wb.push j.ObjType
  let (obj, j) :=
    if obj.getType ≠ j.ObjType then
      j.CastInst CastOp.BitCast obj j.ObjType "casted" j.block_
    else (obj, j)
  let call_args := [j.vm_, obj, val]
  (wb.call j "rbx_write_barrier" call_args 3 "" j.block_).2

/-- Instructions appended to `block` between emitter state `j` and the later state `k`. -/
def JITOperations.emitted (j k : JITOperations) (block : BasicBlock) : List Inst :=
  (k.function_.body block).drop (j.function_.body block).length

/-! ## Meaning of the emitted instructions -/

/-- Run-time state of the compiled function: results of executed instructions,
arguments, contents of function-local variables, and byte-addressed memory.
Function-local variables are memory objects of their own (the stack-top cell is
"a fixed memory location associated with the function"), so no computed address
reaches them. -/
structure Machine where
  regs : Nat → Nat
  args : Nat → Nat
  slots : Nat → Nat
  mem : Nat → Nat

/-- Two's complement reading of a `w`-bit pattern. -/
def toSigned (w : Nat) (x : Nat) : Int :=
  if x < 2 ^ (w - 1) then (x : Int) else (x : Int) - 2 ^ w

/-- The `w`-bit pattern of an integer. -/
def ofInt (w : Nat) (n : Int) : Nat := (n % 2 ^ w).toNat

/-- Bytes a value of the type occupies in memory. -/
def Ty.storeSize (lp64 : Bool) (t : Ty) : Nat := (t.bits lp64 + 7) / 8

/-- Little-endian read of `n` bytes at address `a`, addresses wrapping at the pointer width. -/
def loadBytes (lp64 : Bool) (mem : Nat → Nat) (a : Nat) : Nat → Nat
  | 0 => 0
  | n + 1 => mem (a % 2 ^ ptrBits lp64) % 256 + 256 * loadBytes lp64 mem (a + 1) n

/-- Little-endian write of the low `n` bytes of `v` at address `a`. -/
def storeBytes (lp64 : Bool) (mem : Nat → Nat) (a n v : Nat) : Nat → Nat :=
  fun k =>
    let d := (k + 2 ^ ptrBits lp64 - a % 2 ^ ptrBits lp64) % 2 ^ ptrBits lp64
    if k < 2 ^ ptrBits lp64 ∧ d < n then v / 256 ^ d % 256 else mem k

/-- Value of an operand. The address of a function-local variable is not
available as a number. -/
def Machine.eval (lp64 : Bool) (σ : Machine) : Value → Option Nat
  | .const ty n => some (ofInt (ty.bits lp64) n)
  | .inst id ty => some (σ.regs id % 2 ^ ty.bits lp64)
  | .arg id ty => some (σ.args id % 2 ^ ty.bits lp64)
  | .slot _ _ => none

/-- Record the result of instruction `id`. -/
def Machine.setReg (σ : Machine) (id : Nat) (x : Nat) : Machine :=
  { σ with regs := fun r => if r = id then x else σ.regs r }

/-- Overwrite the function-local variable `s`. -/
def Machine.setSlot (σ : Machine) (s : Nat) (x : Nat) : Machine :=
  { σ with slots := fun r => if r = s then x else σ.slots r }

/-- Replace the memory. -/
def Machine.setMem (σ : Machine) (mem : Nat → Nat) : Machine :=
  { σ with mem := mem }

/-- Allocation size of a type, the stride of `getelementptr`. No operation of
the class indexes an array of integers wider than their store size. -/
def Ty.allocSize (lp64 : Bool) (m : Module) : Ty → Nat
  | .struct s => ((m.layout s).map (fun l => l.size)).getD 0
  | t => t.storeSize lp64

/-- Byte offset the struct indices of a `getelementptr` add; element 0 of a
struct is at offset 0. -/
def gepFields (m : Module) : Ty → List Value → Option Int
  | _, [] => some 0
  | .struct s, (.const _ k) :: rest =>
    match m.layout s with
    | some l =>
      match l.fields.get? k.toNat with
      | some (ft, off) =>
        (gepFields m ft rest).map (fun o => (if k.toNat = 0 then 0 else (off : Int)) + o)
      | none => none
    | none => none
  | _, _ :: _ => none

/-- Address a `getelementptr` computes from the base address: the first index,
sign-extended, strides over the pointee; arithmetic wraps at the pointer width. -/
def gepAddr (lp64 : Bool) (σ : Machine) (m : Module) (base : Nat) (ty : Ty) :
    List Value → Option Nat
  | i0 :: rest =>
    match ty with
    | .ptr e =>
      match σ.eval lp64 i0, gepFields m e rest with
      | some x, some o =>
        some (ofInt (ptrBits lp64)
          ((base : Int) + toSigned (i0.getType.bits lp64) x * (e.allocSize lp64 m : Nat) + o))
      | _, _ => none
    | _ => none
  | [] => none

/-- Result of a cast instruction on the bit pattern `x`. -/
def castVal (lp64 : Bool) (op : CastOp) (src dst : Ty) (x : Nat) : Nat :=
  match op with
  | .SExt => ofInt (dst.bits lp64) (toSigned (src.bits lp64) x)
  | _ => x % 2 ^ dst.bits lp64

/-- Result of a binary instruction on `w`-bit patterns; a shift by `w` or more has no result. -/
def binVal (w : Nat) (op : BinOp) (a b : Nat) : Option Nat :=
  match op with
  | .And => some (a &&& b)
  | .Or => some (a ||| b)
  | .Shl => if b < w then some ((a <<< b) % 2 ^ w) else none
  | .LShr => if b < w then some (a >>> b) else none

/-- Result of an integer comparison on `w`-bit patterns. -/
def icmpVal (w : Nat) (pred : Predicate) (a b : Nat) : Nat :=
  match pred with
  | .ICMP_EQ => if a = b then 1 else 0
  | .ICMP_SLT => if toSigned w a < toSigned w b then 1 else 0

/-- One instruction. Terminators and calls into the runtime are outside the
straight-line meaning and give `none`, as do operands the backend rejects. -/
def step (lp64 : Bool) (m : Module) (i : Inst) (σ : Machine) : Option Machine :=
  match i with
  | .Load id ptr _ =>
    match ptr with
    | .slot s ty =>
      (ty.getElementType).map (fun e => σ.setReg id (σ.slots s % 2 ^ e.bits lp64))
    | p =>
      match σ.eval lp64 p, p.getType.getElementType with
      | some a, some e =>
        some (σ.setReg id (loadBytes lp64 σ.mem a (e.storeSize lp64) % 2 ^ e.bits lp64))
      | _, _ => none
  | .Store val ptr _ =>
    match σ.eval lp64 val with
    | none => none
    | some x =>
      match ptr with
      | .slot s _ => some (σ.setSlot s x)
      | p =>
        match σ.eval lp64 p, p.getType.isPtr with
        | some a, true =>
          some (σ.setMem (storeBytes lp64 σ.mem a (val.getType.storeSize lp64) x))
        | _, _ => none
  | .GetElementPtr id ptr idx _ =>
    match σ.eval lp64 ptr with
    | some base => (gepAddr lp64 σ m base ptr.getType idx).map (fun a => σ.setReg id a)
    | none => none
  | .Cast id op v ty _ =>
    (σ.eval lp64 v).map (fun x => σ.setReg id (castVal lp64 op v.getType ty x))
  | .Binary id op a b _ =>
    match σ.eval lp64 a, σ.eval lp64 b with
    | some x, some y => (binVal (a.getType.bits lp64) op x y).map (fun r => σ.setReg id r)
    | _, _ => none
  | .ICmp id pred a b _ =>
    match σ.eval lp64 a, σ.eval lp64 b with
    | some x, some y => some (σ.setReg id (icmpVal (a.getType.bits lp64) pred x y))
    | _, _ => none
  | .Br _ => none
  | .CondBr _ _ _ => none
  | .Call _ _ _ _ _ _ => none

/-- A straight-line instruction sequence, in order. -/
def exec (lp64 : Bool) (m : Module) : List Inst → Machine → Option Machine
  | [], σ => some σ
  | i :: rest, σ => (step lp64 m i σ).bind (exec lp64 m rest)

/-- What the constructor establishes, with the stack-top cell a function-local
variable that holds a pointer into an array of object references. -/
def JITOperations.WellFormed (lp64 : Bool) (j : JITOperations) : Prop :=
  j.IntPtrTy = Ty.int (ptrBits lp64) ∧
  j.ObjType = Ty.ptr (Ty.struct "struct.rubinius::Object") ∧
  j.ObjArrayTy = Ty.ptr j.ObjType ∧
  j.Int31Ty = Ty.int 31 ∧
  ∃ s, j.stack_top_ = Value.slot s (Ty.ptr (Ty.ptr j.ObjType))

/-- The handle exists in the function under construction: an instruction
result is one already created. -/
def JITOperations.Defines (j : JITOperations) : Value → Prop
  | .inst id _ => id < j.function_.nextValue
  | _ => True

/-! ## A concrete module, emitter and machine -/

/-- A module whose type table has the runtime structs the constructor asks for;
the object header starts with its 32-bit flags word. -/
def exampleModule : Module :=
  { types :=
      [("struct.rubinius::Object",
          { fields := [(Ty.struct "struct.rubinius::ObjectHeader", 0)], size := 16 }),
       ("struct.rubinius::ObjectHeader",
          { fields := [(Ty.struct "struct.rubinius::HeaderWord", 0)], size := 16 }),
       ("struct.rubinius::HeaderWord", { fields := [(Ty.int 32, 0)], size := 8 }),
       ("struct.rubinius::VM", { fields := [], size := 0 }),
       ("struct.rubinius::CallFrame", { fields := [], size := 0 })] }

/-- The object-reference type of `exampleModule`. -/
def exampleObjType : Ty := Ty.ptr (Ty.struct "struct.rubinius::Object")

/-- A function with one block and no instruction yet. -/
def exampleFunction : Function :=
  { arg_begin := Value.arg 0 (Ty.ptr (Ty.struct "struct.rubinius::VM")),
    blocks := ["entry"], body := fun _ => [], nextValue := 0 }

/-- The emitter the constructor builds over `exampleModule`, the stack-top cell being local variable 0. -/
def exampleJIT (lp64 : Bool) : JITOperations :=
  { stack_top_ := Value.slot 0 (Ty.ptr (Ty.ptr exampleObjType)), ls_ := { id := 0 },
    block_ := 0, module_ := exampleModule, function_ := exampleFunction,
    vm_ := exampleFunction.arg_begin,
    IntPtrTy := if lp64 then Ty.int 64 else Ty.int 32, ObjType := exampleObjType,
    ObjArrayTy := Ty.ptr exampleObjType, Int31Ty := Ty.int 31,
    VMTy := Ty.ptr (Ty.struct "struct.rubinius::VM"),
    CallFrameTy := Ty.ptr (Ty.struct "struct.rubinius::CallFrame") }

/-- A machine state: the stack-top cell holds address 4096, argument 1 is 77,
argument 2 is 4660, memory is zero except for the byte 0x05 at address 77 and 0x12 at 78. -/
def exampleMachine : Machine :=
  { regs := fun _ => 0,
    args := fun i => if i = 1 then 77 else if i = 2 then 4660 else 0,
    slots := fun _ => 4096,
    mem := fun a => if a = 77 then 5 else if a = 78 then 18 else 0 }

/-! ## The operand stack as a sequence of operations -/

/-- The value the stack-top cell holds, as a load through `stack_top_` reads it. -/
def Machine.stackPtr (lp64 : Bool) (σ : Machine) (j : JITOperations) : Option Nat :=
  match j.stack_top_ with
  | .slot s ty => (ty.getElementType).map (fun e => σ.slots s % 2 ^ e.bits lp64)
  | _ => none

/-- One operand-stack operation of a translated instruction sequence. -/
inductive StackOp where
  | push (v : Value)
  | pop
  deriving DecidableEq, Repr

/-- Emit a sequence of `stack_push` / `stack_pop` calls into the current block;
the result lists the handles the pops returned, in order. -/
def emitOps : JITOperations → List StackOp → List Value × JITOperations
  | j, [] => ([], j)
  | j, .push v :: rest => emitOps (j.stack_push v none) rest
  | j, .pop :: rest =>
    let popped := j.stack_pop none
    let more := emitOps popped.2 rest
    (popped.1 :: more.1, more.2)

/-- The operands given to the pushes, in order. -/
def pushedValues : List StackOp → List Value
  | [] => []
  | .push v :: rest => v :: pushedValues rest
  | .pop :: rest => pushedValues rest

/-- No prefix pops more than it has pushed on top of the `depth` entries already there. -/
def prefixBalanced : Nat → List StackOp → Bool
  | _, [] => true
  | depth, .push _ :: rest => prefixBalanced (depth + 1) rest
  | 0, .pop :: _ => false
  | depth + 1, .pop :: rest => prefixBalanced depth rest

/-- The spec's stack, last in first out: the values the pops of a sequence
return, `some x` being a push of `x` and `none` a pop, starting from `stk`
(top first). -/
def lifoPops {α : Type} : List α → List (Option α) → List α
  | _, [] => []
  | stk, some x :: rest => lifoPops (x :: stk) rest
  | top :: stk, none :: rest => top :: lifoPops stk rest
  | [], none :: rest => lifoPops [] rest

/-- The sequence as the spec's stack sees it: each push with the value its operand has. -/
def StackOp.abstract (lp64 : Bool) (σ : Machine) : StackOp → Option (Option Nat)
  | .push v => some (σ.eval lp64 v)
  | .pop => none

/-- The typing facts about the stack-top cell that the stack operations keep. -/
def StackTyped (j : JITOperations) (s : Nat) : Prop :=
  j.ObjType = Ty.ptr (Ty.struct "struct.rubinius::Object") ∧
  j.stack_top_ = Value.slot s (Ty.ptr (Ty.ptr j.ObjType))

/-- The values `stk` (top first) sit in the pointer-sized slots above `base`. -/
def Holds (lp64 : Bool) (mem : Nat → Nat) (base : Nat) : List Nat → Prop
  | [] => True
  | x :: stk =>
    loadBytes lp64 mem (base + sizeofObjectPtr lp64 * (stk.length + 1)) (sizeofObjectPtr lp64) = x ∧
    Holds lp64 mem base stk

/-! ## Block placement and the tagged word -/

/-- Going from emitter state `j` to `k`, every instruction was appended to
`block`: the other blocks are as they were, the old content of `block` is a
prefix of the new, nothing was appended to the current block of `j`, and the
current block is still the same. -/
def JITOperations.EmitsOnlyInto (j k : JITOperations) (block : BasicBlock) : Prop :=
  (∀ b, b ≠ block → k.function_.body b = j.function_.body b) ∧
  j.function_.body block <+: k.function_.body block ∧
  j.emitted k j.block_ = [] ∧
  k.current_block = j.current_block

/-- The tagged word `fixnum_tag` computes for the 32-bit constant `n`: the
value of its result after its code has run on `exampleMachine`. -/
def fixnumWord (lp64 : Bool) (n : Int) : Option Nat :=
  let tagged := (exampleJIT lp64).fixnum_tag (Value.const (Ty.int 32) n) none
  (exec lp64 (exampleJIT lp64).module_
    ((exampleJIT lp64).emitted tagged.2 (exampleJIT lp64).block_) exampleMachine).bind
    (fun σ' => σ'.eval lp64 tagged.1)

/-! ## Lemmas on values and machine states -/

@[simp] theorem getType_const (ty : Ty) (n : Int) : (Value.const ty n).getType = ty := rfl
@[simp] theorem getType_inst (id : Nat) (ty : Ty) : (Value.inst id ty).getType = ty := rfl
@[simp] theorem getType_arg (id : Nat) (ty : Ty) : (Value.arg id ty).getType = ty := rfl
@[simp] theorem getType_slot (id : Nat) (ty : Ty) : (Value.slot id ty).getType = ty := rfl

@[simp] theorem bits_int (lp64 : Bool) (b : Nat) : (Ty.int b).bits lp64 = b := rfl
@[simp] theorem bits_ptr (lp64 : Bool) (e : Ty) : (Ty.ptr e).bits lp64 = ptrBits lp64 := rfl

@[simp] theorem eval_const (lp64 : Bool) (σ : Machine) (ty : Ty) (n : Int) :
    σ.eval lp64 (Value.const ty n) = some (ofInt (ty.bits lp64) n) := rfl
@[simp] theorem eval_inst (lp64 : Bool) (σ : Machine) (id : Nat) (ty : Ty) :
    σ.eval lp64 (Value.inst id ty) = some (σ.regs id % 2 ^ ty.bits lp64) := rfl
@[simp] theorem eval_arg (lp64 : Bool) (σ : Machine) (id : Nat) (ty : Ty) :
    σ.eval lp64 (Value.arg id ty) = some (σ.args id % 2 ^ ty.bits lp64) := rfl
@[simp] theorem eval_slot (lp64 : Bool) (σ : Machine) (id : Nat) (ty : Ty) :
    σ.eval lp64 (Value.slot id ty) = none := rfl

@[simp] theorem setReg_regs (σ : Machine) (id x r : Nat) :
    (σ.setReg id x).regs r = if r = id then x else σ.regs r := rfl
@[simp] theorem setReg_args (σ : Machine) (id x : Nat) : (σ.setReg id x).args = σ.args := rfl
@[simp] theorem setReg_slots (σ : Machine) (id x : Nat) : (σ.setReg id x).slots = σ.slots := rfl
@[simp] theorem setReg_mem (σ : Machine) (id x : Nat) : (σ.setReg id x).mem = σ.mem := rfl
@[simp] theorem setSlot_regs (σ : Machine) (s x : Nat) : (σ.setSlot s x).regs = σ.regs := rfl
@[simp] theorem setSlot_args (σ : Machine) (s x : Nat) : (σ.setSlot s x).args = σ.args := rfl
@[simp] theorem setSlot_slots (σ : Machine) (s x r : Nat) :
    (σ.setSlot s x).slots r = if r = s then x else σ.slots r := rfl
@[simp] theorem setSlot_mem (σ : Machine) (s x : Nat) : (σ.setSlot s x).mem = σ.mem := rfl
@[simp] theorem setMem_regs (σ : Machine) (f : Nat → Nat) : (σ.setMem f).regs = σ.regs := rfl
@[simp] theorem setMem_args (σ : Machine) (f : Nat → Nat) : (σ.setMem f).args = σ.args := rfl
@[simp] theorem setMem_slots (σ : Machine) (f : Nat → Nat) : (σ.setMem f).slots = σ.slots := rfl
@[simp] theorem setMem_mem (σ : Machine) (f : Nat → Nat) : (σ.setMem f).mem = f := rfl

/-- Recording the result of a new instruction leaves every existing handle's value alone. -/
theorem eval_setReg_of_defines (lp64 : Bool) (j : JITOperations) (σ : Machine) (v : Value)
    (id x : Nat) (hv : j.Defines v) (hid : j.function_.nextValue ≤ id) :
    (σ.setReg id x).eval lp64 v = σ.eval lp64 v := by
  cases v with
  | inst i ty =>
    have : i ≠ id := by
      have : i < j.function_.nextValue := hv
      omega
    simp [this]
  | _ => rfl

@[simp] theorem eval_setSlot (lp64 : Bool) (σ : Machine) (v : Value) (s x : Nat) :
    (σ.setSlot s x).eval lp64 v = σ.eval lp64 v := by
  cases v <;> rfl

@[simp] theorem eval_setMem (lp64 : Bool) (σ : Machine) (v : Value) (f : Nat → Nat) :
    (σ.setMem f).eval lp64 v = σ.eval lp64 v := by
  cases v <;> rfl

theorem eval_lt (lp64 : Bool) (σ : Machine) (v : Value) (x : Nat)
    (h : σ.eval lp64 v = some x) : x < 2 ^ v.getType.bits lp64 := by
  cases v with
  | const ty n =>
    simp [ofInt] at h
    subst h
    have : (0 : Int) < 2 ^ ty.bits lp64 := by positivity
    have h2 := Int.emod_lt_of_pos n this
    have h3 := Int.emod_nonneg n (ne_of_gt this)
    simp only [getType_const]
    zify
    rw [Int.toNat_of_nonneg h3]
    exact_mod_cast h2
  | inst i ty => simp at h; subst h; exact Nat.mod_lt _ (by positivity)
  | arg i ty => simp at h; subst h; exact Nat.mod_lt _ (by positivity)
  | slot i ty => simp at h

theorem or_one_of_even (x : Nat) (h : x % 2 = 0) : x ||| 1 = x + 1 := by
  have := Nat.mul_add_lt_is_or (i := 1) (b := 1) (by norm_num) (x / 2)
  simp at this
  rw [show x = 2 * (x / 2) by omega]
  omega

theorem ofInt32_cases (n : Int) (h1 : -2 ^ 31 ≤ n) (h2 : n < 2 ^ 31) :
    ((ofInt 32 n : Nat) : Int) = if 0 ≤ n then n else n + 2 ^ 32 := by
  unfold ofInt
  split <;> omega

@[simp] theorem ofInt_one_32 : ofInt 32 1 = 1 := by decide
@[simp] theorem ofInt_zero (w : Nat) : ofInt w 0 = 0 := by simp [ofInt]

theorem shl_or_one (x : Nat) :
    ((x <<< 1) % 4294967296 ||| 1) = (x * 2) % 4294967296 + 1 := by
  rw [or_one_of_even _ (by rw [Nat.shiftLeft_eq]; omega), Nat.shiftLeft_eq, pow_one]

theorem ptrBits_cases (lp64 : Bool) : 2 ^ ptrBits lp64 = 2 ^ 32 ∨ 2 ^ ptrBits lp64 = 2 ^ 64 := by
  cases lp64 <;> simp [ptrBits]

theorem ofInt_cases_31_32 (w : Nat) (hw : w = 32 ∨ w = 31) (n : Int) (h1 : -2 ^ 30 ≤ n)
    (h2 : n < 2 ^ 30) : ((ofInt w n : Nat) : Int) = if 0 ≤ n then n else n + 2 ^ w := by
  unfold ofInt
  rcases hw with rfl | rfl <;> split <;> omega

/-- C1: for every integer `n` with `-2^30 ≤ n < 2^30`, held by an operand of the
native 32-bit (or the 31-bit) integer type, the code `fixnum_tag` emits followed
by the code `tag_strip` emits with the default result type runs to completion,
the result has the 31-bit integer type, and read as a signed integer it is `n`. -/
theorem tag_strip_fixnum_tag (lp64 : Bool) (j : JITOperations) (σ : Machine) (obj : Value)
    (w : Nat) (n : Int) (hj : j.WellFormed lp64) (hw : w = 32 ∨ w = 31)
    (hty : obj.getType = Ty.int w) (hval : σ.eval lp64 obj = some (ofInt w n))
    (h1 : -2 ^ 30 ≤ n) (h2 : n < 2 ^ 30) :
    let tagged := j.fixnum_tag obj none
    let stripped := tagged.2.tag_strip tagged.1 none none
    stripped.1.getType = Ty.int 31 ∧
    ∃ σ', exec lp64 j.module_ (j.emitted stripped.2 j.block_) σ = some σ' ∧
      (σ'.eval lp64 stripped.1).map (toSigned 31) = some n := by
  obtain ⟨-, h₂, -, h₄, -⟩ := hj
  have hx := ofInt_cases_31_32 w hw n h1 h2
  rcases hw with rfl | rfl <;>
  · simp [JITOperations.fixnum_tag, JITOperations.tag_strip, JITOperations.CreateZExtOrBitCast,
      JITOperations.CreateIntegerCast, JITOperations.CastInst, JITOperations.BinaryOperator,
      JITOperations.emit, Function.append, JITOperations.emitted, hty, h₂, h₄,
      Ty.getPrimitiveSizeInBits]
    simp [exec, step, hval, castVal, binVal, shl_or_one, Nat.shiftRight_eq_div_pow]
    generalize ofInt _ n = x at hx
    unfold toSigned
    rcases ptrBits_cases lp64 with h | h <;> rw [h] <;> split at hx <;> split <;> omega

/-- The constructor, given a local variable of type `Object***` as the stack-top
cell, builds a well-formed emitter whenever it succeeds. -/
theorem new_wellFormed (lp64 : Bool) (ls : LLVMState) (mod : Module) (s : Nat)
    (start : BasicBlock) (func : Function) (j : JITOperations)
    (h : JITOperations.new lp64 ls mod
      (Value.slot s (Ty.ptr (Ty.ptr (Ty.ptr (Ty.struct "struct.rubinius::Object")))))
      start func = .ok j) : j.WellFormed lp64 := by
  simp only [JITOperations.new, Module.ptr_type] at h
  have e1 : "struct.rubinius::" ++ "Object" = "struct.rubinius::Object" := by decide
  have e2 : "struct.rubinius::" ++ "VM" = "struct.rubinius::VM" := by decide
  have e3 : "struct.rubinius::" ++ "CallFrame" = "struct.rubinius::CallFrame" := by decide
  rw [e1, e2, e3] at h
  cases h1 : mod.getTypeByName "struct.rubinius::Object" with
  | none => simp [h1, getUnqual, bind, Except.bind] at h
  | some t1 =>
    have ht1 : t1 = Ty.struct "struct.rubinius::Object" := by
      simp only [Module.getTypeByName, Option.map_eq_some'] at h1
      obtain ⟨_, _, h⟩ := h1
      exact h.symm
    cases h2 : mod.getTypeByName "struct.rubinius::VM" with
    | none => simp [h1, h2, getUnqual, bind, Except.bind] at h
    | some t2 =>
      cases h3 : mod.getTypeByName "struct.rubinius::CallFrame" with
      | none => simp [h1, h2, h3, getUnqual, bind, Except.bind] at h
      | some t3 =>
        simp [h1, h2, h3, getUnqual, bind, Except.bind, pure, Except.pure] at h
        subst h
        subst ht1
        refine ⟨?_, rfl, rfl, rfl, s, rfl⟩
        cases lp64 <;> rfl

theorem exampleJIT_new (lp64 : Bool) :
    JITOperations.new lp64 { id := 0 } exampleModule
      (Value.slot 0 (Ty.ptr (Ty.ptr exampleObjType))) 0 exampleFunction =
      .ok (exampleJIT lp64) := by
  cases lp64 <;> rfl

theorem exampleJIT_wellFormed (lp64 : Bool) : (exampleJIT lp64).WellFormed lp64 := by
  refine ⟨?_, rfl, rfl, rfl, 0, rfl⟩
  cases lp64 <;> rfl

theorem tag_strip_fixnum_tag_witness :
    (-2 ^ 30 ≤ (-5 : Int) ∧ (-5 : Int) < 2 ^ 30) ∧
    (let tagged := (exampleJIT true).fixnum_tag (Value.const (Ty.int 32) (-5)) none
     let stripped := tagged.2.tag_strip tagged.1 none none
     stripped.1.getType = Ty.int 31 ∧
     ∃ σ', exec true (exampleJIT true).module_
         ((exampleJIT true).emitted stripped.2 (exampleJIT true).block_) exampleMachine = some σ' ∧
       (σ'.eval true stripped.1).map (toSigned 31) = some (-5)) :=
  ⟨by decide,
   tag_strip_fixnum_tag true (exampleJIT true) exampleMachine (Value.const (Ty.int 32) (-5)) 32
     (-5) (exampleJIT_wellFormed true) (Or.inl rfl) rfl rfl (by decide) (by decide)⟩

theorem ofInt_ptrBits_one (lp64 : Bool) : ofInt (ptrBits lp64) 1 = 1 := by
  cases lp64 <;> decide

/-- C5: for every integer `n` (in particular every `n` of the small-integer
range) held by a 32-bit or 31-bit operand, the code `fixnum_tag` emits followed
by the code `check_if_fixnum` emits on its result runs to completion and the
comparison result is 1 (true). -/
theorem check_if_fixnum_fixnum_tag (lp64 : Bool) (j : JITOperations) (σ : Machine)
    (obj : Value) (w : Nat) (n : Int) (hj : j.WellFormed lp64) (hw : w = 32 ∨ w = 31)
    (hty : obj.getType = Ty.int w) (hval : σ.eval lp64 obj = some (ofInt w n)) :
    let tagged := j.fixnum_tag obj none
    let check := tagged.2.check_if_fixnum tagged.1
    ∃ σ', exec lp64 j.module_ (j.emitted check.2 j.block_) σ = some σ' ∧
      σ'.eval lp64 check.1 = some 1 := by
  obtain ⟨h₁, h₂, -, -, -⟩ := hj
  rcases hw with rfl | rfl <;>
  · simp [JITOperations.fixnum_tag, JITOperations.check_if_fixnum, JITOperations.cast_int,
      JITOperations.CreateZExtOrBitCast, JITOperations.ICmpInst,
      JITOperations.CastInst, JITOperations.BinaryOperator,
      JITOperations.emit, Function.append, JITOperations.emitted, hty, h₁, h₂,
      Ty.getPrimitiveSizeInBits]
    simp [exec, step, hval, castVal, binVal, icmpVal, shl_or_one, TAG_FIXNUM, TAG_FIXNUM_MASK,
      ofInt_ptrBits_one, Nat.and_one_is_mod]
    generalize ofInt _ n = x
    rcases ptrBits_cases lp64 with h | h <;> rw [h] <;> split_ifs <;> omega

/-- C6: for every pointer-typed operand holding the word `x`, the code
`check_if_fixnum` emits runs to completion; its result is 1 (true) exactly when
`x AND TAG_FIXNUM_MASK` equals `TAG_FIXNUM` and 0 otherwise, and it is 0
(false) whenever bit 0 of `x` is 0. -/
theorem check_if_fixnum_spec (lp64 : Bool) (j : JITOperations) (σ : Machine) (val : Value)
    (x : Nat) (hj : j.WellFormed lp64) (hty : val.getType.isPtr = true)
    (hval : σ.eval lp64 val = some x) :
    let check := j.check_if_fixnum val
    ∃ σ', exec lp64 j.module_ (j.emitted check.2 j.block_) σ = some σ' ∧
      σ'.eval lp64 check.1 =
        some (if x &&& TAG_FIXNUM_MASK.toNat = TAG_FIXNUM.toNat then 1 else 0) ∧
      (x % 2 = 0 → σ'.eval lp64 check.1 = some 0) := by
  obtain ⟨h₁, -, -, -, -⟩ := hj
  have hx := eval_lt lp64 σ val x hval
  have hb : val.getType.bits lp64 = ptrBits lp64 := by
    cases hv : val.getType <;> simp [hv, Ty.isPtr] at hty ⊢
  rw [hb] at hx
  simp [JITOperations.check_if_fixnum, JITOperations.cast_int, JITOperations.ICmpInst,
      JITOperations.CastInst, JITOperations.BinaryOperator,
      JITOperations.emit, Function.append, JITOperations.emitted, h₁]
  simp [exec, step, hval, castVal, binVal, icmpVal, TAG_FIXNUM, TAG_FIXNUM_MASK,
      ofInt_ptrBits_one, Nat.and_one_is_mod, Nat.mod_eq_of_lt hx]
  rcases ptrBits_cases lp64 with h | h <;> rw [h] <;> constructor <;> split_ifs <;> omega

/-- Indexing element 0 all the way down adds no offset. -/
theorem gepFields_zero (m : Module) (idx : List Value)
    (hidx : ∀ v ∈ idx, ∃ ty, v = Value.const ty 0) :
    ∀ (t t' : Ty), gepWalk m t idx = some t' → gepFields m t idx = some 0 := by
  induction idx with
  | nil => intro t t' _; cases t <;> rfl
  | cons v rest ih =>
    intro t t' h
    obtain ⟨ty, rfl⟩ := hidx v (List.mem_cons_self _ _)
    have ih' := ih (fun v hv => hidx v (List.mem_cons_of_mem _ hv))
    cases t with
    | struct s =>
      simp only [gepWalk, Int.toNat_zero, List.get?_eq_getElem?] at h
      simp only [gepFields, Int.toNat_zero, List.get?_eq_getElem?]
      cases hl : m.layout s with
      | none => simp [hl] at h
      | some l =>
        simp only [hl] at h ⊢
        cases hf : l.fields[0]? with
        | none => simp [hf] at h
        | some p =>
          obtain ⟨ft, off⟩ := p
          simp only [hf] at h ⊢
          rw [ih' ft t' h]
          simp
    | int b => simp [gepWalk] at h
    | ptr e => simp [gepWalk] at h

theorem ofInt_natCast (w a : Nat) (h : a < 2 ^ w) : ofInt w (a : Int) = a := by
  unfold ofInt
  have : ((a : Int) % 2 ^ w) = a := by
    apply Int.emod_eq_of_lt (by positivity)
    exact_mod_cast h
  rw [this]; simp

theorem loadBytes_lt (lp64 : Bool) (mem : Nat → Nat) (n : Nat) :
    ∀ a, loadBytes lp64 mem a n < 256 ^ n := by
  induction n with
  | zero => intro a; simp [loadBytes]
  | succ n ih =>
    intro a
    have := ih (a + 1)
    simp only [loadBytes, pow_succ]
    omega

theorem and_255 (f : Nat) : f &&& 255 = f % 256 := by
  have := Nat.and_pow_two_sub_one_eq_mod f 8
  simpa using this

/-- C7: with the header flags field a 32-bit word (what the four zero indices
reach from the object's type), for every flags word `f` stored at the object's
address and every `int` type tag `T`, the code `check_type_bits` emits runs to
completion and its result is 1 (true) exactly when `f AND 0xFF` equals `T`,
0 (false) otherwise; `f AND 0xFF` is `f mod 256`, so bits 8..31 of `f` play no part. -/
theorem check_type_bits_spec (lp64 : Bool) (j : JITOperations) (σ : Machine) (obj : Value)
    (a : Nat) (T : Int)
    (hflags : gepType j.module_ obj.getType
      [Value.const (Ty.int 32) 0, Value.const (Ty.int 32) 0, Value.const (Ty.int 32) 0,
       Value.const (Ty.int 32) 0] = some (Ty.ptr (Ty.int 32)))
    (hval : σ.eval lp64 obj = some a) (hT1 : -2 ^ 31 ≤ T) (hT2 : T < 2 ^ 31) :
    let check := j.check_type_bits obj T
    let f := loadBytes lp64 σ.mem a 4
    ∃ σ', exec lp64 j.module_ (j.emitted check.2 j.block_) σ = some σ' ∧
      σ'.eval lp64 check.1 = some (if ((f &&& 0xFF : Nat) : Int) = T then 1 else 0) ∧
      f &&& 0xFF = f % 256 := by
  have ha := eval_lt lp64 σ obj a hval
  cases hobj : obj.getType with
  | int b => simp [hobj, gepType] at hflags
  | struct s => simp [hobj, gepType] at hflags
  | ptr e =>
    rw [hobj] at hflags ha
    simp only [bits_ptr] at ha
    simp only [gepType, Option.map_eq_some'] at hflags
    obtain ⟨t', hwalk, ht'⟩ := hflags
    have hzero := gepFields_zero j.module_ _ (by simp) e t' hwalk
    simp [JITOperations.check_type_bits, JITOperations.create_gep, JITOperations.create_load,
      JITOperations.GetElementPtrInst, JITOperations.LoadInst, JITOperations.ICmpInst,
      JITOperations.BinaryOperator, JITOperations.emit, Function.append, JITOperations.emitted,
      hobj, gepType, hwalk, ht', Ty.getElementType]
    simp [exec, step, hval, hobj, gepAddr, hzero, toSigned, binVal, icmpVal, Ty.getElementType,
      Ty.storeSize, and_255, ofInt_natCast _ _ ha, Nat.mod_eq_of_lt ha]
    have hf := loadBytes_lt lp64 σ.mem 4 a
    generalize loadBytes lp64 σ.mem a 4 = f at hf
    have hT := ofInt32_cases T hT1 hT2
    generalize ofInt 32 T = t at hT
    have h255 : ofInt 32 255 = 255 := by decide
    rw [h255, and_255]
    split at hT <;> split_ifs <;> omega

theorem toSizeT_mod (lp64 : Bool) (offset : Int) :
    ((toSizeT lp64 offset % sizeofObjectPtr lp64 : Nat) : Int) =
      offset % (sizeofObjectPtr lp64 : Nat) := by
  cases lp64 <;> simp [toSizeT, sizeofObjectPtr, ptrBits] <;> omega

/-- C8: for every byte offset that is not a multiple of `sizeof(Object*)`,
`get_object_slot` fails on its assertion, and the emitter state it leaves is
the one it was called in: no cast, no field address and no load was emitted. -/
theorem get_object_slot_misaligned (lp64 : Bool) (j : JITOperations) (obj : Value)
    (offset : Int) (h : offset % (sizeofObjectPtr lp64 : Nat) ≠ 0) :
    j.get_object_slot lp64 obj offset =
      (.error (Fatal.assertion "offset % sizeof(Object*) == 0"), j) := by
  have hm := toSizeT_mod lp64 offset
  have : toSizeT lp64 offset % sizeofObjectPtr lp64 ≠ 0 := by
    intro h0
    rw [h0] at hm
    exact h (by simpa using hm.symm)
  simp [JITOperations.get_object_slot, this]

theorem get_object_slot_misaligned_witness :
    ((3 : Int) % (sizeofObjectPtr true : Nat) ≠ 0) ∧
    (exampleJIT true).get_object_slot true (Value.arg 1 exampleObjType) 3 =
      (.error (Fatal.assertion "offset % sizeof(Object*) == 0"), exampleJIT true) :=
  ⟨by decide,
   get_object_slot_misaligned true (exampleJIT true) (Value.arg 1 exampleObjType) 3 (by decide)⟩

theorem loadBytes_ptr_lt (lp64 : Bool) (mem : Nat → Nat) (a : Nat) :
    loadBytes lp64 mem a (sizeofObjectPtr lp64) < 2 ^ ptrBits lp64 := by
  have := loadBytes_lt lp64 mem (sizeofObjectPtr lp64) a
  cases lp64 <;> simpa [sizeofObjectPtr, ptrBits] using this

theorem storeSize_ptr (lp64 : Bool) : (ptrBits lp64 + 7) / 8 = sizeofObjectPtr lp64 := by
  cases lp64 <;> rfl

/-- C9: for every operand holding the object address `a` and every `int` byte
offset that is a multiple of `sizeof(Object*)`, `get_object_slot` succeeds, the
code it emits runs to completion, and the value it returns is the
pointer-sized word stored at address `a + offset` (wrapped to the pointer
width): the object is cast to an array of references and indexed by the
offset divided by `sizeof(Object*)`. -/
theorem get_object_slot_aligned (lp64 : Bool) (j : JITOperations) (σ : Machine) (obj : Value)
    (a : Nat) (offset : Int) (hj : j.WellFormed lp64) (hval : σ.eval lp64 obj = some a)
    (h1 : -2 ^ 31 ≤ offset) (h2 : offset < 2 ^ 31)
    (hal : offset % (sizeofObjectPtr lp64 : Nat) = 0) :
    let slot := j.get_object_slot lp64 obj offset
    j.emitted slot.2 j.block_ =
      [Inst.Cast j.function_.nextValue CastOp.BitCast obj (Ty.ptr j.ObjType) "obj_array",
       Inst.GetElementPtr (j.function_.nextValue + 1)
         (Value.inst j.function_.nextValue (Ty.ptr j.ObjType))
         [Value.const (Ty.int 32) (toSizeT lp64 offset / sizeofObjectPtr lp64 : Nat)] "field_pos",
       Inst.Load (j.function_.nextValue + 2)
         (Value.inst (j.function_.nextValue + 1) (Ty.ptr j.ObjType)) "flags"] ∧
    ∃ field, slot.1 = .ok field ∧
      ∃ σ', exec lp64 j.module_ (j.emitted slot.2 j.block_) σ = some σ' ∧
        σ'.eval lp64 field =
          some (loadBytes lp64 σ.mem (ofInt (ptrBits lp64) (a + offset))
            (sizeofObjectPtr lp64)) := by
  obtain ⟨-, h₂, -, -, -⟩ := hj
  have hm := toSizeT_mod lp64 offset
  rw [hal] at hm
  have hal' : toSizeT lp64 offset % sizeofObjectPtr lp64 = 0 := by exact_mod_cast hm
  simp [JITOperations.get_object_slot, hal', JITOperations.create_gep,
    JITOperations.create_load, JITOperations.GetElementPtrInst, JITOperations.LoadInst,
    JITOperations.CastInst, JITOperations.emit, Function.append, JITOperations.emitted,
    h₂, gepType, gepWalk, Ty.getElementType]
  simp only [exec, step, hval, castVal, gepAddr, gepFields, Ty.allocSize, Ty.storeSize,
    Ty.getElementType, Option.map_some', Option.some_bind, eval_inst, eval_const, bits_ptr,
    bits_int, setReg_regs, getType_inst, getType_const, storeSize_ptr, if_true,
    Option.some.injEq]
  refine ⟨_, rfl, ?_⟩
  simp only [setReg_regs, setReg_mem, if_true]
  have key : ∀ E F : Nat, E = F →
      loadBytes lp64 σ.mem E (sizeofObjectPtr lp64) % 2 ^ ptrBits lp64 =
        loadBytes lp64 σ.mem F (sizeofObjectPtr lp64) := by
    intro E F h
    rw [h, Nat.mod_eq_of_lt (loadBytes_ptr_lt lp64 _ _)]
  rw [Nat.mod_mod]
  apply key
  cases lp64 <;> simp [toSizeT, sizeofObjectPtr, ptrBits, ofInt, toSigned] at hal' ⊢ <;>
    split_ifs <;> omega

theorem get_object_slot_aligned_witness :
    (-2 ^ 31 ≤ (-8 : Int) ∧ (-8 : Int) < 2 ^ 31 ∧ (-8 : Int) % (sizeofObjectPtr true : Nat) = 0) ∧
    (let slot := (exampleJIT true).get_object_slot true (Value.arg 1 exampleObjType) (-8)
     (exampleJIT true).emitted slot.2 (exampleJIT true).block_ =
       [Inst.Cast (exampleJIT true).function_.nextValue CastOp.BitCast
          (Value.arg 1 exampleObjType) (Ty.ptr (exampleJIT true).ObjType) "obj_array",
        Inst.GetElementPtr ((exampleJIT true).function_.nextValue + 1)
          (Value.inst (exampleJIT true).function_.nextValue (Ty.ptr (exampleJIT true).ObjType))
          [Value.const (Ty.int 32) (toSizeT true (-8) / sizeofObjectPtr true : Nat)] "field_pos",
        Inst.Load ((exampleJIT true).function_.nextValue + 2)
          (Value.inst ((exampleJIT true).function_.nextValue + 1)
            (Ty.ptr (exampleJIT true).ObjType)) "flags"] ∧
     ∃ field, slot.1 = .ok field ∧
       ∃ σ', exec true (exampleJIT true).module_
           ((exampleJIT true).emitted slot.2 (exampleJIT true).block_) exampleMachine = some σ' ∧
         σ'.eval true field =
           some (loadBytes true exampleMachine.mem (ofInt (ptrBits true) ((77 : Nat) + (-8 : Int)))
             (sizeofObjectPtr true))) :=
  ⟨by decide,
   get_object_slot_aligned true (exampleJIT true) exampleMachine (Value.arg 1 exampleObjType) 77
     (-8) (exampleJIT_wellFormed true) (by decide) (by decide) (by decide) (by decide)⟩

/-- C10: for every object and value operand, `write_barrier` appends to the
current block exactly one call, to `rbx_write_barrier` with the signature
`ObjType (VMTy, ObjType, ObjType)` and the arguments `(vm_, obj, val)` in that
order, whatever the operands; a bit-cast of `obj` to `ObjType` precedes the call
(and its result is the object argument) exactly when the static type of `obj`
differs from `ObjType`; `val` is passed as given; nothing is appended to any
other block. -/
theorem write_barrier_spec (j : JITOperations) (obj val : Value) :
    let k := j.write_barrier obj val
    let n := j.function_.nextValue
    let sig := [j.VMTy, j.ObjType, j.ObjType]
    j.emitted k j.block_ =
      (if obj.getType = j.ObjType then
        [Inst.Call n "rbx_write_barrier" j.ObjType sig [j.vm_, obj, val] ""]
      else
        [Inst.Cast n CastOp.BitCast obj j.ObjType "casted",
         Inst.Call (n + 1) "rbx_write_barrier" j.ObjType sig
           [j.vm_, Value.inst n j.ObjType, val] ""]) ∧
    (∀ b, b ≠ j.block_ → j.emitted k b = []) := by
  by_cases h : obj.getType = j.ObjType <;>
    simp +contextual [JITOperations.write_barrier, Signature.call, Signature.push,
      JITOperations.CastInst, JITOperations.emit, Function.append, JITOperations.emitted, h]

/-! ## Lemmas on byte memory -/

theorem storeBytes_hit (lp64 : Bool) (mem : Nat → Nat) (a n v k : Nat) (hk : k < n)
    (hn : n ≤ 2 ^ ptrBits lp64) :
    storeBytes lp64 mem a n v ((a + k) % 2 ^ ptrBits lp64) = v / 256 ^ k % 256 := by
  have hd : ((a + k) % 2 ^ ptrBits lp64 + 2 ^ ptrBits lp64 - a % 2 ^ ptrBits lp64) %
      2 ^ ptrBits lp64 = k := by
    cases lp64 <;> simp [ptrBits] at hn ⊢ <;> omega
  have hlt : (a + k) % 2 ^ ptrBits lp64 < 2 ^ ptrBits lp64 := Nat.mod_lt _ (by positivity)
  simp only [storeBytes, hd, hlt, hk, and_self, if_true]

theorem storeBytes_miss (lp64 : Bool) (mem : Nat → Nat) (a n v b : Nat)
    (h : n ≤ (b % 2 ^ ptrBits lp64 + 2 ^ ptrBits lp64 - a % 2 ^ ptrBits lp64) %
      2 ^ ptrBits lp64) :
    storeBytes lp64 mem a n v (b % 2 ^ ptrBits lp64) = mem (b % 2 ^ ptrBits lp64) := by
  simp only [storeBytes]
  rw [if_neg]
  omega

/-- Reading back inside a freshly written range gives the written bytes. -/
theorem loadBytes_storeBytes_sub (lp64 : Bool) (mem : Nat → Nat) (a n v : Nat)
    (hn : n ≤ 2 ^ ptrBits lp64) :
    ∀ (n' k : Nat), k + n' ≤ n →
      loadBytes lp64 (storeBytes lp64 mem a n v) (a + k) n' = v / 256 ^ k % 256 ^ n' := by
  intro n'
  induction n' with
  | zero => intro k _; simp [loadBytes, Nat.mod_one]
  | succ n' ih =>
    intro k hk
    have h1 := storeBytes_hit lp64 mem a n v k (by omega) hn
    have h2 := ih (k + 1) (by omega)
    simp only [loadBytes, h1, Nat.mod_mod]
    rw [Nat.add_assoc, h2, pow_succ 256 k, ← Nat.div_div_eq_div_mul, pow_succ' 256 n', Nat.mod_mul]

theorem loadBytes_storeBytes_same (lp64 : Bool) (mem : Nat → Nat) (a n v : Nat)
    (hn : n ≤ 2 ^ ptrBits lp64) :
    loadBytes lp64 (storeBytes lp64 mem a n v) a n = v % 256 ^ n := by
  have := loadBytes_storeBytes_sub lp64 mem a n v hn n 0 (by omega)
  simpa using this

/-- A write leaves a read of a disjoint range alone. -/
theorem loadBytes_storeBytes_disjoint (lp64 : Bool) (mem : Nat → Nat) (a n v : Nat) :
    ∀ (n' b : Nat),
      (∀ i, i < n' → n ≤ ((b + i) % 2 ^ ptrBits lp64 + 2 ^ ptrBits lp64 -
        a % 2 ^ ptrBits lp64) % 2 ^ ptrBits lp64) →
      loadBytes lp64 (storeBytes lp64 mem a n v) b n' = loadBytes lp64 mem b n' := by
  intro n'
  induction n' with
  | zero => intro b _; rfl
  | succ n' ih =>
    intro b h
    have h0 := h 0 (by omega)
    simp only [Nat.add_zero] at h0
    have h1 := storeBytes_miss lp64 mem a n v b h0
    have h2 := ih (b + 1) (fun i hi => by
      have := h (i + 1) (by omega)
      rwa [show b + (i + 1) = b + 1 + i by omega] at this)
    simp only [loadBytes, h1, h2]

theorem ofInt_lt (w : Nat) (n : Int) : ofInt w n < 2 ^ w := by
  unfold ofInt
  have hpos : (0 : Int) < 2 ^ w := by positivity
  have h2 := Int.emod_lt_of_pos n hpos
  have h3 := Int.emod_nonneg n (ne_of_gt hpos)
  zify
  rw [Int.toNat_of_nonneg h3]
  exact_mod_cast h2

@[simp] theorem ofInt_mod (w : Nat) (n : Int) : ofInt w n % 2 ^ w = ofInt w n :=
  Nat.mod_eq_of_lt (ofInt_lt w n)

@[simp] theorem toSigned_32_one : toSigned 32 (ofInt 32 1) = 1 := by decide
@[simp] theorem toSigned_32_lit_one : toSigned 32 1 = 1 := by decide
@[simp] theorem toSigned_32_neg_one : toSigned 32 (ofInt 32 (-1)) = -1 := by decide

@[simp] theorem gepWalk_nil (m : Module) (t : Ty) : gepWalk m t [] = some t := by
  cases t <;> rfl

@[simp] theorem gepFields_nil (m : Module) (t : Ty) : gepFields m t [] = some 0 := by
  cases t <;> rfl

theorem isPtr_bits (lp64 : Bool) (t : Ty) (h : t.isPtr = true) : t.bits lp64 = ptrBits lp64 := by
  cases t <;> simp [Ty.isPtr] at h ⊢

theorem pow_256_sizeof (lp64 : Bool) : 256 ^ sizeofObjectPtr lp64 = 2 ^ ptrBits lp64 := by
  cases lp64 <;> simp [sizeofObjectPtr, ptrBits]

theorem sizeof_le (lp64 : Bool) : sizeofObjectPtr lp64 ≤ 2 ^ ptrBits lp64 := by
  cases lp64 <;> simp [sizeofObjectPtr, ptrBits]

/-- C3: for every machine state and every reference operand `v` (of any pointer
type, so also one that `stack_push` has to bit-cast), the code `stack_push v`
emits followed by the code `stack_pop` emits runs to completion, the value
`stack_pop` returns is the value of `v`, bit for bit, and the stack-top cell
holds exactly the value it held before the push. -/
theorem stack_push_pop (lp64 : Bool) (j : JITOperations) (σ : Machine) (v : Value) (x : Nat)
    (hj : j.WellFormed lp64) (hv : j.Defines v) (hty : v.getType.isPtr = true)
    (hval : σ.eval lp64 v = some x) :
    let pushed := j.stack_push v none
    let popped := pushed.stack_pop none
    ∃ σ', exec lp64 j.module_ (j.emitted popped.2 j.block_) σ = some σ' ∧
      σ'.eval lp64 popped.1 = some x ∧
      ∃ sp, σ.stackPtr lp64 j = some sp ∧ σ'.stackPtr lp64 j = some sp := by
  obtain ⟨-, h₂, -, -, s, h₅⟩ := hj
  have hx := eval_lt lp64 σ v x hval
  rw [isPtr_bits lp64 _ hty] at hx
  have hfr : ∀ (σ : Machine) (id y : Nat), j.function_.nextValue ≤ id →
      (σ.setReg id y).eval lp64 v = σ.eval lp64 v :=
    fun σ id y h => eval_setReg_of_defines lp64 j σ v id y hv h
  have hfin : ∀ A : Nat,
      loadBytes lp64 (storeBytes lp64 σ.mem A (sizeofObjectPtr lp64) x) A
        (sizeofObjectPtr lp64) % 2 ^ ptrBits lp64 = x := by
    intro A
    rw [loadBytes_storeBytes_same lp64 _ _ _ _ (sizeof_le lp64), pow_256_sizeof,
      Nat.mod_mod, Nat.mod_eq_of_lt hx]
  have hsp : ofInt (ptrBits lp64)
      (↑(ofInt (ptrBits lp64)
          (↑(σ.slots s) % 2 ^ ptrBits lp64 + ↑(sizeofObjectPtr lp64))) %
        2 ^ ptrBits lp64 + -↑(sizeofObjectPtr lp64)) = σ.slots s % 2 ^ ptrBits lp64 := by
    cases lp64 <;> simp [ofInt, toSigned, sizeofObjectPtr, ptrBits] <;> omega
  by_cases hc : v.getType = j.ObjType
  · simp [JITOperations.stack_push, JITOperations.stack_pop, JITOperations.stack_back,
      JITOperations.stack_back_position, JITOperations.stack_position,
      JITOperations.stack_ptr_adjust, JITOperations.set_stack_ptr, JITOperations.stack_ptr,
      JITOperations.GetElementPtrInst, JITOperations.LoadInst, JITOperations.StoreInst,
      JITOperations.CastInst, JITOperations.emit, JITOperations.emitVoid, Function.append,
      JITOperations.emitted, h₂, h₅, hc, gepType, gepWalk, Ty.getElementType, negInt, wrapInt]
    simp (disch := omega) [exec, step, hval, hfr, castVal, gepAddr, gepFields, Ty.allocSize,
      Ty.storeSize, Ty.getElementType, Ty.isPtr, storeSize_ptr, Machine.stackPtr, h₅, h₂,
      isPtr_bits lp64 _ hty]
    exact ⟨hfin _, hsp⟩
  · simp [JITOperations.stack_push, JITOperations.stack_pop, JITOperations.stack_back,
      JITOperations.stack_back_position, JITOperations.stack_position,
      JITOperations.stack_ptr_adjust, JITOperations.set_stack_ptr, JITOperations.stack_ptr,
      JITOperations.GetElementPtrInst, JITOperations.LoadInst, JITOperations.StoreInst,
      JITOperations.CastInst, JITOperations.emit, JITOperations.emitVoid, Function.append,
      JITOperations.emitted, h₂, h₅, hc, gepType, gepWalk, Ty.getElementType, negInt, wrapInt]
    rw [h₂] at hc
    simp (disch := omega) [exec, step, hval, hfr, castVal, gepAddr, gepFields, Ty.allocSize,
      Ty.storeSize, Ty.getElementType, Ty.isPtr, storeSize_ptr, Machine.stackPtr, h₅, h₂,
      isPtr_bits lp64 _ hty, hc, Nat.mod_eq_of_lt hx]
    exact ⟨hfin _, hsp⟩

theorem toSigned_ofInt_32 (k : Int) (h1 : -2 ^ 31 ≤ k) (h2 : k < 2 ^ 31) :
    toSigned 32 (ofInt 32 k) = k := by
  unfold toSigned ofInt
  split_ifs <;> omega

theorem negInt_range (k : Int) (h1 : -2 ^ 31 ≤ k) (h2 : k < 2 ^ 31) :
    -2 ^ 31 ≤ negInt k ∧ negInt k < 2 ^ 31 ∧
      (-2 ^ 31 < k → negInt k = -k) ∧ (k = -2 ^ 31 → negInt k = -2 ^ 31) := by
  unfold negInt wrapInt
  refine ⟨by omega, by omega, fun h => by omega, fun h => by omega⟩

/-- C4 as stated fails: with 64-bit pointers, `stack_ptr_adjust` by the most
negative `int` and then by its negation (which is the most negative `int`
again) moves the stack pointer from 4096 down by `2^35` bytes. -/
theorem stack_ptr_adjust_int_min :
    ∃ σ', exec true (exampleJIT true).module_
        ((exampleJIT true).emitted
          (((exampleJIT true).stack_ptr_adjust (-2 ^ 31) none).2.stack_ptr_adjust
            (negInt (-2 ^ 31)) none).2 (exampleJIT true).block_) exampleMachine = some σ' ∧
      exampleMachine.stackPtr true (exampleJIT true) = some 4096 ∧
      σ'.stackPtr true (exampleJIT true) = some (2 ^ 64 - 2 ^ 35 + 4096) := by
  refine ⟨_, rfl, ?_, ?_⟩ <;> decide

/-- C4, amended: for every `int` `k` other than the most negative one (and for
that one too where pointers are 32 bits wide), the code of `stack_ptr_adjust k`
followed by the code of `stack_ptr_adjust (-k)` runs to completion and leaves
in the stack-top cell exactly the value it held before. -/
theorem stack_ptr_adjust_inverse (lp64 : Bool) (j : JITOperations) (σ : Machine) (k : Int)
    (hj : j.WellFormed lp64) (h1 : -2 ^ 31 ≤ k) (h2 : k < 2 ^ 31)
    (h3 : -2 ^ 31 < k ∨ lp64 = false) :
    let up := j.stack_ptr_adjust k none
    let down := up.2.stack_ptr_adjust (negInt k) none
    ∃ σ', exec lp64 j.module_ (j.emitted down.2 j.block_) σ = some σ' ∧
      ∃ sp, σ.stackPtr lp64 j = some sp ∧ σ'.stackPtr lp64 j = some sp := by
  obtain ⟨-, h₂, -, -, s, h₅⟩ := hj
  obtain ⟨n1, n2, n3, n4⟩ := negInt_range k h1 h2
  have hs1 := toSigned_ofInt_32 k h1 h2
  have hs2 := toSigned_ofInt_32 (negInt k) n1 n2
  by_cases hk : k = 0
  · subst hk
    have : negInt 0 = 0 := by decide
    simp [JITOperations.stack_position,
      JITOperations.stack_ptr_adjust, JITOperations.set_stack_ptr, JITOperations.stack_ptr,
      JITOperations.GetElementPtrInst, JITOperations.LoadInst, JITOperations.StoreInst,
      JITOperations.emit, JITOperations.emitVoid, Function.append,
      JITOperations.emitted, h₂, h₅, this, Ty.getElementType]
    simp [exec, step, Ty.getElementType, Machine.stackPtr, h₅, h₂]
  · have hnk : negInt k ≠ 0 := by
      intro h0
      rcases (show -2 ^ 31 < k ∨ k = -2 ^ 31 by omega) with h | h
      · rw [n3 h] at h0; omega
      · rw [n4 h] at h0; omega
    simp [JITOperations.stack_position,
      JITOperations.stack_ptr_adjust, JITOperations.set_stack_ptr, JITOperations.stack_ptr,
      JITOperations.GetElementPtrInst, JITOperations.LoadInst, JITOperations.StoreInst,
      JITOperations.emit, JITOperations.emitVoid, Function.append,
      JITOperations.emitted, h₂, h₅, hk, hnk, gepType, Ty.getElementType]
    simp [exec, step, gepAddr, Ty.allocSize, Ty.storeSize, storeSize_ptr,
      Ty.getElementType, Machine.stackPtr, h₅, h₂, hs1, hs2]
    generalize negInt k = m at n1 n2 n3 n4
    rcases h3 with h3 | h3
    · have := n3 h3
      subst this
      cases lp64 <;> simp [ofInt, sizeofObjectPtr, ptrBits] <;> omega
    · subst h3
      rcases (show -2 ^ 31 < k ∨ k = -2 ^ 31 by omega) with h | h
      · have := n3 h
        subst this
        simp [ofInt, sizeofObjectPtr, ptrBits]; omega
      · have := n4 h
        subst this
        subst h
        simp [ofInt, sizeofObjectPtr, ptrBits]; omega

/-! ## Sequences of pushes and pops -/

theorem stack_push_emit (j : JITOperations) (v : Value) (s : Nat) (hj : StackTyped j s) :
    let k := j.stack_push v none
    k.function_.body j.block_ = j.function_.body j.block_ ++ j.emitted k j.block_ ∧
    k.block_ = j.block_ ∧ k.module_ = j.module_ ∧ StackTyped k s ∧
    j.function_.nextValue ≤ k.function_.nextValue := by
  obtain ⟨h₂, h₅⟩ := hj
  by_cases hc : v.getType = j.ObjType
  · simp [StackTyped, JITOperations.stack_push, JITOperations.stack_position,
      JITOperations.stack_ptr_adjust, JITOperations.set_stack_ptr, JITOperations.stack_ptr,
      JITOperations.GetElementPtrInst, JITOperations.LoadInst, JITOperations.StoreInst,
      JITOperations.CastInst, JITOperations.emit, JITOperations.emitVoid, Function.append,
      JITOperations.emitted, h₂, h₅, hc, gepType, Ty.getElementType]
    omega
  · have hc' := hc
    rw [h₂] at hc'
    simp [StackTyped, JITOperations.stack_push, JITOperations.stack_position,
      JITOperations.stack_ptr_adjust, JITOperations.set_stack_ptr, JITOperations.stack_ptr,
      JITOperations.GetElementPtrInst, JITOperations.LoadInst, JITOperations.StoreInst,
      JITOperations.CastInst, JITOperations.emit, JITOperations.emitVoid, Function.append,
      JITOperations.emitted, h₂, h₅, hc', gepType, Ty.getElementType]
    omega

theorem stack_pop_emit (j : JITOperations) (s : Nat) (hj : StackTyped j s) :
    let p := j.stack_pop none
    p.2.function_.body j.block_ = j.function_.body j.block_ ++ j.emitted p.2 j.block_ ∧
    p.2.block_ = j.block_ ∧ p.2.module_ = j.module_ ∧ StackTyped p.2 s ∧
    j.function_.nextValue + 2 ≤ p.2.function_.nextValue ∧
    p.1 = Value.inst (j.function_.nextValue + 1) j.ObjType := by
  obtain ⟨h₂, h₅⟩ := hj
  simp [StackTyped, JITOperations.stack_pop, JITOperations.stack_back,
    JITOperations.stack_back_position, JITOperations.stack_position,
    JITOperations.stack_ptr_adjust, JITOperations.set_stack_ptr, JITOperations.stack_ptr,
    JITOperations.GetElementPtrInst, JITOperations.LoadInst, JITOperations.StoreInst,
    JITOperations.emit, JITOperations.emitVoid, Function.append,
    JITOperations.emitted, h₂, h₅, gepType, Ty.getElementType, negInt, wrapInt]

/-- What the code of one `stack_push` does to a machine. -/
theorem stack_push_exec (lp64 : Bool) (j : JITOperations) (σ : Machine) (v : Value) (x s : Nat)
    (hj : StackTyped j s) (hv : j.Defines v) (hty : v.getType.isPtr = true)
    (hval : σ.eval lp64 v = some x) :
    ∃ σ', exec lp64 j.module_ (j.emitted (j.stack_push v none) j.block_) σ = some σ' ∧
      σ'.slots s = ofInt (ptrBits lp64)
        ((σ.slots s % 2 ^ ptrBits lp64 : Nat) + (sizeofObjectPtr lp64 : Nat)) ∧
      (∀ r, r ≠ s → σ'.slots r = σ.slots r) ∧
      σ'.mem = storeBytes lp64 σ.mem (σ'.slots s) (sizeofObjectPtr lp64) x ∧
      (∀ r, r < j.function_.nextValue → σ'.regs r = σ.regs r) ∧ σ'.args = σ.args := by
  obtain ⟨h₂, h₅⟩ := hj
  have hx := eval_lt lp64 σ v x hval
  rw [isPtr_bits lp64 _ hty] at hx
  have hfr : ∀ (σ : Machine) (id y : Nat), j.function_.nextValue ≤ id →
      (σ.setReg id y).eval lp64 v = σ.eval lp64 v :=
    fun σ id y h => eval_setReg_of_defines lp64 j σ v id y hv h
  by_cases hc : v.getType = j.ObjType
  · simp [JITOperations.stack_push, JITOperations.stack_position,
      JITOperations.stack_ptr_adjust, JITOperations.set_stack_ptr, JITOperations.stack_ptr,
      JITOperations.GetElementPtrInst, JITOperations.LoadInst, JITOperations.StoreInst,
      JITOperations.CastInst, JITOperations.emit, JITOperations.emitVoid, Function.append,
      JITOperations.emitted, h₂, h₅, hc, gepType, Ty.getElementType]
    simp (disch := omega) [exec, step, hval, hfr, castVal, gepAddr, Ty.allocSize,
      Ty.storeSize, Ty.getElementType, Ty.isPtr, storeSize_ptr,
      isPtr_bits lp64 _ hty]
    refine ⟨fun r h1 h2 => absurd h2 h1, fun r hr => ?_⟩
    rw [if_neg (by omega), if_neg (by omega)]
  · have hc' := hc
    rw [h₂] at hc'
    simp [JITOperations.stack_push, JITOperations.stack_position,
      JITOperations.stack_ptr_adjust, JITOperations.set_stack_ptr, JITOperations.stack_ptr,
      JITOperations.GetElementPtrInst, JITOperations.LoadInst, JITOperations.StoreInst,
      JITOperations.CastInst, JITOperations.emit, JITOperations.emitVoid, Function.append,
      JITOperations.emitted, h₂, h₅, hc', gepType, Ty.getElementType]
    simp (disch := omega) [exec, step, hval, hfr, castVal, gepAddr, Ty.allocSize,
      Ty.storeSize, Ty.getElementType, Ty.isPtr, storeSize_ptr,
      isPtr_bits lp64 _ hty, Nat.mod_eq_of_lt hx]
    refine ⟨fun r h1 h2 => absurd h2 h1, fun r hr => ?_⟩
    rw [if_neg (by omega), if_neg (by omega), if_neg (by omega)]

/-- What the code of one `stack_pop` does to a machine. -/
theorem stack_pop_exec (lp64 : Bool) (j : JITOperations) (σ : Machine) (s : Nat)
    (hj : StackTyped j s) :
    ∃ σ', exec lp64 j.module_ (j.emitted (j.stack_pop none).2 j.block_) σ = some σ' ∧
      σ'.regs (j.function_.nextValue + 1) =
        loadBytes lp64 σ.mem (σ.slots s % 2 ^ ptrBits lp64) (sizeofObjectPtr lp64) ∧
      σ'.slots s = ofInt (ptrBits lp64)
        ((σ.slots s % 2 ^ ptrBits lp64 : Nat) - (sizeofObjectPtr lp64 : Nat)) ∧
      (∀ r, r ≠ s → σ'.slots r = σ.slots r) ∧
      σ'.mem = σ.mem ∧
      (∀ r, r < j.function_.nextValue → σ'.regs r = σ.regs r) ∧ σ'.args = σ.args := by
  obtain ⟨h₂, h₅⟩ := hj
  simp [JITOperations.stack_pop, JITOperations.stack_back,
    JITOperations.stack_back_position, JITOperations.stack_position,
    JITOperations.stack_ptr_adjust, JITOperations.set_stack_ptr, JITOperations.stack_ptr,
    JITOperations.GetElementPtrInst, JITOperations.LoadInst, JITOperations.StoreInst,
    JITOperations.emit, JITOperations.emitVoid, Function.append,
    JITOperations.emitted, h₂, h₅, gepType, Ty.getElementType, negInt, wrapInt]
  simp (disch := omega) [exec, step, gepAddr, Ty.allocSize,
      Ty.storeSize, Ty.getElementType, Ty.isPtr, storeSize_ptr]
  refine ⟨Nat.mod_eq_of_lt (loadBytes_ptr_lt lp64 _ _), by rw [sub_eq_add_neg],
    fun r h1 h2 => absurd h2 h1, fun r hr => ?_⟩
  rw [if_neg (by omega), if_neg (by omega), if_neg (by omega), if_neg (by omega)]

theorem exec_append (lp64 : Bool) (m : Module) (l₁ l₂ : List Inst) :
    ∀ σ, exec lp64 m (l₁ ++ l₂) σ = (exec lp64 m l₁ σ).bind (exec lp64 m l₂) := by
  induction l₁ with
  | nil => intro σ; rfl
  | cons i l ih =>
    intro σ
    simp only [List.cons_append, exec]
    cases step lp64 m i σ with
    | none => rfl
    | some σ₁ => simp [ih]

theorem emitted_trans (j k l : JITOperations) (b : BasicBlock)
    (h₁ : k.function_.body b = j.function_.body b ++ j.emitted k b)
    (h₂ : l.function_.body b = k.function_.body b ++ k.emitted l b) :
    l.function_.body b = j.function_.body b ++ j.emitted l b ∧
    j.emitted l b = j.emitted k b ++ k.emitted l b := by
  have h : l.function_.body b = j.function_.body b ++ (j.emitted k b ++ k.emitted l b) := by
    rw [h₂, h₁, List.append_assoc]
  have h' : j.emitted l b = j.emitted k b ++ k.emitted l b := by
    conv_lhs => rw [JITOperations.emitted, h]
    simp
  exact ⟨by rw [h', h], h'⟩

theorem loadBytes_mod (lp64 : Bool) (mem : Nat → Nat) (n : Nat) :
    ∀ a, loadBytes lp64 mem (a % 2 ^ ptrBits lp64) n = loadBytes lp64 mem a n := by
  induction n with
  | zero => intro a; rfl
  | succ n ih =>
    intro a
    simp only [loadBytes, Nat.mod_mod]
    rw [← ih (a % 2 ^ ptrBits lp64 + 1), ← ih (a + 1)]
    congr 3
    rw [Nat.add_mod, Nat.mod_mod, ← Nat.add_mod]

theorem eval_frame (lp64 : Bool) (j : JITOperations) (σ σ' : Machine) (v : Value)
    (hv : j.Defines v) (hr : ∀ r, r < j.function_.nextValue → σ'.regs r = σ.regs r)
    (ha : σ'.args = σ.args) : σ'.eval lp64 v = σ.eval lp64 v := by
  cases v with
  | inst i ty => simp [hr i hv]
  | arg i ty => simp [ha]
  | const ty n => rfl
  | slot i ty => rfl

theorem defines_mono (j k : JITOperations) (v : Value) (hv : j.Defines v)
    (h : j.function_.nextValue ≤ k.function_.nextValue) : k.Defines v := by
  cases v with
  | inst i ty => exact Nat.lt_of_lt_of_le hv h
  | _ => trivial

theorem holds_store (lp64 : Bool) (mem : Nat → Nat) (base x d : Nat)
    (hd : sizeofObjectPtr lp64 * (d + 1) ≤ 2 ^ ptrBits lp64) :
    ∀ stk : List Nat, stk.length ≤ d → Holds lp64 mem base stk →
      Holds lp64
        (storeBytes lp64 mem ((base + sizeofObjectPtr lp64 * (d + 1)) % 2 ^ ptrBits lp64)
          (sizeofObjectPtr lp64) x) base stk := by
  intro stk
  induction stk with
  | nil => intro _ _; trivial
  | cons y stk ih =>
    intro hl h
    simp only [List.length_cons] at hl
    refine ⟨?_, ih (by omega) h.2⟩
    rw [loadBytes_storeBytes_disjoint, h.1]
    intro i hi
    cases lp64 <;> simp [sizeofObjectPtr, ptrBits] at hd hi ⊢ <;> omega

theorem abstract_frame (lp64 : Bool) (σ σ' : Machine) :
    ∀ ops : List StackOp, (∀ v ∈ pushedValues ops, σ'.eval lp64 v = σ.eval lp64 v) →
      ops.map (StackOp.abstract lp64 σ') = ops.map (StackOp.abstract lp64 σ) := by
  intro ops
  induction ops with
  | nil => intro _; rfl
  | cons op rest ih =>
    intro h
    cases op with
    | push v =>
      have hv := h v (by simp [pushedValues])
      have := ih (fun w hw => h w (by simp [pushedValues, hw]))
      simp [StackOp.abstract, hv, this]
    | pop =>
      have := ih (fun w hw => h w (by simpa [pushedValues] using hw))
      simp [StackOp.abstract, this]

theorem slot_after_push (lp64 : Bool) (sp base len : Nat)
    (h : sp % 2 ^ ptrBits lp64 = (base + sizeofObjectPtr lp64 * len) % 2 ^ ptrBits lp64) :
    ofInt (ptrBits lp64) ((sp % 2 ^ ptrBits lp64 : Nat) + (sizeofObjectPtr lp64 : Nat)) =
      (base + sizeofObjectPtr lp64 * (len + 1)) % 2 ^ ptrBits lp64 := by
  cases lp64 <;> simp [ofInt, sizeofObjectPtr, ptrBits] at h ⊢ <;> omega

theorem slot_after_pop (lp64 : Bool) (sp base len : Nat)
    (h : sp % 2 ^ ptrBits lp64 = (base + sizeofObjectPtr lp64 * (len + 1)) % 2 ^ ptrBits lp64) :
    ofInt (ptrBits lp64) ((sp % 2 ^ ptrBits lp64 : Nat) - (sizeofObjectPtr lp64 : Nat)) =
      (base + sizeofObjectPtr lp64 * len) % 2 ^ ptrBits lp64 := by
  cases lp64 <;> simp [ofInt, sizeofObjectPtr, ptrBits] at h ⊢ <;> omega

/-- The code of a balanced sequence of pushes and pops run on a machine whose
stack holds `stk` above `base`: it completes and the pops return what the
last-in first-out stack returns. -/
theorem emitOps_run (lp64 : Bool) (s base : Nat) :
    ∀ (ops : List StackOp) (j : JITOperations) (σ : Machine) (stk : List Nat),
      StackTyped j s →
      (∀ v ∈ pushedValues ops,
        j.Defines v ∧ v.getType.isPtr = true ∧ (σ.eval lp64 v).isSome = true) →
      prefixBalanced stk.length ops = true →
      sizeofObjectPtr lp64 * (stk.length + ops.length) ≤ 2 ^ ptrBits lp64 →
      σ.slots s % 2 ^ ptrBits lp64 =
        (base + sizeofObjectPtr lp64 * stk.length) % 2 ^ ptrBits lp64 →
      Holds lp64 σ.mem base stk →
      (emitOps j ops).2.function_.body j.block_ =
          j.function_.body j.block_ ++ j.emitted (emitOps j ops).2 j.block_ ∧
      ∃ σ', exec lp64 j.module_ (j.emitted (emitOps j ops).2 j.block_) σ = some σ' ∧
        (emitOps j ops).1.map (σ'.eval lp64) =
          lifoPops (stk.map some) (ops.map (StackOp.abstract lp64 σ)) ∧
        (∀ r, r < j.function_.nextValue → σ'.regs r = σ.regs r) ∧ σ'.args = σ.args := by
  intro ops
  induction ops with
  | nil =>
    intro j σ stk _ _ _ _ _ _
    simp [emitOps, JITOperations.emitted, exec, lifoPops]
  | cons op rest ih =>
    intro j σ stk hj hops hbal hsz hsp hmem
    cases op with
    | push v =>
      obtain ⟨hv, hty, hsome⟩ := hops v (by simp [pushedValues])
      obtain ⟨x, hx⟩ := Option.isSome_iff_exists.mp hsome
      obtain ⟨he, hb, hm, hj1, hnv⟩ := stack_push_emit j v s hj
      obtain ⟨σ₁, hex, hslot, -, hmem₁, hregs, hargs⟩ :=
        stack_push_exec lp64 j σ v x s hj hv hty hx
      have hxlt := eval_lt lp64 σ v x hx
      rw [isPtr_bits lp64 _ hty] at hxlt
      rw [slot_after_push lp64 _ base stk.length hsp] at hslot
      simp only [List.length_cons] at hsz
      have hops₁ : ∀ w ∈ pushedValues rest, (j.stack_push v none).Defines w ∧
          w.getType.isPtr = true ∧ (σ₁.eval lp64 w).isSome = true := by
        intro w hw
        obtain ⟨h1, h2, h3⟩ := hops w (by simp [pushedValues, hw])
        exact ⟨defines_mono j _ w h1 hnv, h2, by rw [eval_frame lp64 j σ σ₁ w h1 hregs hargs]; exact h3⟩
      have hsp₁ : σ₁.slots s % 2 ^ ptrBits lp64 =
          (base + sizeofObjectPtr lp64 * (x :: stk).length) % 2 ^ ptrBits lp64 := by
        rw [hslot, Nat.mod_mod, List.length_cons]
      have hholds : Holds lp64 σ₁.mem base (x :: stk) := by
        rw [hmem₁, hslot]
        refine ⟨?_, holds_store lp64 σ.mem base x stk.length
          (Nat.le_trans (Nat.mul_le_mul_left _ (by omega)) hsz) stk (le_refl _) hmem⟩
        rw [← loadBytes_mod, loadBytes_storeBytes_same lp64 _ _ _ _ (sizeof_le lp64),
          pow_256_sizeof, Nat.mod_eq_of_lt hxlt]
      obtain ⟨he₂, σ', hex₂, hpops, hregs₂, hargs₂⟩ :=
        ih (j.stack_push v none) σ₁ (x :: stk) hj1 hops₁ (by simpa [prefixBalanced] using hbal)
          (by simp only [List.length_cons]
              exact Nat.le_trans (Nat.mul_le_mul_left _ (by omega)) hsz) hsp₁ hholds
      rw [hb] at he₂ hex₂
      rw [hm] at hex₂
      obtain ⟨hbody, hemit⟩ := emitted_trans j (j.stack_push v none) _ j.block_ he he₂
      have hfr : rest.map (StackOp.abstract lp64 σ₁) = rest.map (StackOp.abstract lp64 σ) :=
        abstract_frame lp64 σ σ₁ rest (fun w hw =>
          eval_frame lp64 j σ σ₁ w (hops w (by simp [pushedValues, hw])).1 hregs hargs)
      refine ⟨hbody, σ', ?_, ?_, fun r hr => ?_, by rw [hargs₂, hargs]⟩
      · show exec lp64 j.module_ (j.emitted (emitOps (j.stack_push v none) rest).2 j.block_) σ = _
        rw [hemit, exec_append, hex]
        exact hex₂
      · show (emitOps (j.stack_push v none) rest).1.map (σ'.eval lp64) = _
        rw [hpops, hfr]
        simp [StackOp.abstract, hx, lifoPops]
      · rw [hregs₂ r (by omega), hregs r hr]
    | pop =>
      cases stk with
      | nil => simp [prefixBalanced] at hbal
      | cons top stk =>
        obtain ⟨he, hb, hm, hj1, hnv, hres⟩ := stack_pop_emit j s hj
        obtain ⟨σ₁, hex, hreg, hslot, -, hmem₁, hregs, hargs⟩ := stack_pop_exec lp64 j σ s hj
        simp only [List.length_cons] at hsz hsp
        rw [slot_after_pop lp64 _ base stk.length hsp] at hslot
        have htop : σ₁.regs (j.function_.nextValue + 1) = top := by
          rw [hreg, hsp, loadBytes_mod]
          exact hmem.1
        have htoplt : top < 2 ^ ptrBits lp64 := by
          rw [← hmem.1]
          exact loadBytes_ptr_lt lp64 _ _
        have hops₁ : ∀ w ∈ pushedValues rest, (j.stack_pop none).2.Defines w ∧
            w.getType.isPtr = true ∧ (σ₁.eval lp64 w).isSome = true := by
          intro w hw
          obtain ⟨h1, h2, h3⟩ := hops w (by simpa [pushedValues] using hw)
          exact ⟨defines_mono j _ w h1 (by omega), h2,
            by rw [eval_frame lp64 j σ σ₁ w h1 hregs hargs]; exact h3⟩
        obtain ⟨he₂, σ', hex₂, hpops, hregs₂, hargs₂⟩ :=
          ih (j.stack_pop none).2 σ₁ stk hj1 hops₁ (by simpa [prefixBalanced] using hbal)
            (Nat.le_trans (Nat.mul_le_mul_left _ (by omega)) hsz)
            (by rw [hslot, Nat.mod_mod]) (by rw [hmem₁]; exact hmem.2)
        rw [hb] at he₂ hex₂
        rw [hm] at hex₂
        obtain ⟨hbody, hemit⟩ := emitted_trans j (j.stack_pop none).2 _ j.block_ he he₂
        have hfr : rest.map (StackOp.abstract lp64 σ₁) = rest.map (StackOp.abstract lp64 σ) :=
          abstract_frame lp64 σ σ₁ rest (fun w hw =>
            eval_frame lp64 j σ σ₁ w (hops w (by simpa [pushedValues] using hw)).1 hregs hargs)
        refine ⟨hbody, σ', ?_, ?_, fun r hr => ?_, by rw [hargs₂, hargs]⟩
        · show exec lp64 j.module_
            (j.emitted (emitOps (j.stack_pop none).2 rest).2 j.block_) σ = _
          rw [hemit, exec_append, hex]
          exact hex₂
        · show ((j.stack_pop none).1 :: (emitOps (j.stack_pop none).2 rest).1).map
            (σ'.eval lp64) = _
          rw [List.map_cons, hpops, hfr, hres]
          have hbits : j.ObjType.bits lp64 = ptrBits lp64 := by rw [hj.1]; rfl
          simp [StackOp.abstract, lifoPops, hbits, hregs₂ (j.function_.nextValue + 1) (by omega),
            htop, Nat.mod_eq_of_lt htoplt]
        · rw [hregs₂ r (by omega), hregs r hr]

theorem lifoPops_pushes {α : Type} (xs : List α) :
    ∀ (stk : List α) (rest : List (Option α)),
      lifoPops stk (xs.map some ++ rest) = lifoPops (xs.reverse ++ stk) rest := by
  induction xs with
  | nil => intro stk rest; rfl
  | cons x xs ih =>
    intro stk rest
    simp only [List.map_cons, List.cons_append, lifoPops, ih, List.reverse_cons,
      List.append_assoc, List.singleton_append, List.nil_append]

theorem lifoPops_pops {α : Type} (ys : List α) :
    ∀ stk : List α, lifoPops (ys ++ stk) (List.replicate ys.length none) = ys := by
  induction ys with
  | nil => intro stk; simp [lifoPops]
  | cons y ys ih =>
    intro stk
    have := ih stk
    simp only [List.length_cons, List.replicate_succ, List.cons_append, lifoPops]
    exact congrArg (List.cons y) this

theorem lifoPops_push_pop {α : Type} (xs : List α) :
    lifoPops [] (xs.map some ++ List.replicate xs.length none) = xs.reverse := by
  rw [lifoPops_pushes]
  have := lifoPops_pops xs.reverse ([] : List α)
  rwa [List.length_reverse] at this

theorem map_abstract_pushes (lp64 : Bool) (σ : Machine) (vs : List Value) :
    (vs.map StackOp.push ++ List.replicate vs.length StackOp.pop).map (StackOp.abstract lp64 σ) =
      (vs.map (σ.eval lp64)).map some ++ List.replicate (vs.map (σ.eval lp64)).length none := by
  simp [StackOp.abstract, Function.comp_def]

/-- C2 as stated fails: for the prefix-balanced sequence push 77; pop; push
4660; pop the pops return 77 then 4660, which is the pushed list itself and not
its reverse 4660, 77. -/
theorem stack_ops_not_reverse :
    prefixBalanced 0
        [StackOp.push (Value.arg 1 exampleObjType), StackOp.pop,
         StackOp.push (Value.arg 2 exampleObjType), StackOp.pop] = true ∧
    ∃ σ', exec true (exampleJIT true).module_
        ((exampleJIT true).emitted
          (emitOps (exampleJIT true)
            [StackOp.push (Value.arg 1 exampleObjType), StackOp.pop,
             StackOp.push (Value.arg 2 exampleObjType), StackOp.pop]).2
          (exampleJIT true).block_) exampleMachine = some σ' ∧
      (emitOps (exampleJIT true)
          [StackOp.push (Value.arg 1 exampleObjType), StackOp.pop,
           StackOp.push (Value.arg 2 exampleObjType), StackOp.pop]).1.map (σ'.eval true) =
        [some 77, some 4660] ∧
      ((pushedValues
          [StackOp.push (Value.arg 1 exampleObjType), StackOp.pop,
           StackOp.push (Value.arg 2 exampleObjType), StackOp.pop]).map
        (exampleMachine.eval true)).reverse = [some 4660, some 77] := by
  refine ⟨by decide, _, rfl, ?_, ?_⟩ <;> decide

/-- C2, amended: for every prefix-balanced sequence of `stack_push` and
`stack_pop` whose pushed operands are existing references, and which is no
longer than the address space has pointer-sized slots, the emitted code runs
to completion and the pops return what a last-in first-out stack returns: each
pop gives the value of the latest push not yet popped. When the sequence is
all its pushes followed by as many pops, the returned list is the exact
reverse of the pushed list (so push a; push b; pop; pop returns b, then a). -/
theorem stack_ops_lifo (lp64 : Bool) (j : JITOperations) (σ : Machine) (ops : List StackOp)
    (hj : j.WellFormed lp64)
    (hops : ∀ v ∈ pushedValues ops,
      j.Defines v ∧ v.getType.isPtr = true ∧ (σ.eval lp64 v).isSome = true)
    (hbal : prefixBalanced 0 ops = true)
    (hsz : sizeofObjectPtr lp64 * ops.length ≤ 2 ^ ptrBits lp64) :
    ∃ σ', exec lp64 j.module_ (j.emitted (emitOps j ops).2 j.block_) σ = some σ' ∧
      (emitOps j ops).1.map (σ'.eval lp64) = lifoPops [] (ops.map (StackOp.abstract lp64 σ)) ∧
      (∀ vs : List Value,
        ops = vs.map StackOp.push ++ List.replicate vs.length StackOp.pop →
        (emitOps j ops).1.map (σ'.eval lp64) = (vs.map (σ.eval lp64)).reverse) := by
  obtain ⟨-, h₂, -, -, s, h₅⟩ := hj
  obtain ⟨-, σ', hex, hpops, -, -⟩ :=
    emitOps_run lp64 s (σ.slots s) ops j σ [] ⟨h₂, h₅⟩ hops hbal
      (by simpa using hsz) (by simp) trivial
  rw [List.map_nil] at hpops
  refine ⟨σ', hex, hpops, fun vs hvs => ?_⟩
  rw [hpops, hvs, map_abstract_pushes, lifoPops_push_pop]

theorem stack_ops_lifo_witness :
    (prefixBalanced 0
        [StackOp.push (Value.arg 1 exampleObjType), StackOp.push (Value.arg 2 exampleObjType),
         StackOp.pop, StackOp.pop] = true ∧
     sizeofObjectPtr true * 4 ≤ 2 ^ ptrBits true) ∧
    ∃ σ', exec true (exampleJIT true).module_
        ((exampleJIT true).emitted
          (emitOps (exampleJIT true)
            [StackOp.push (Value.arg 1 exampleObjType),
             StackOp.push (Value.arg 2 exampleObjType), StackOp.pop, StackOp.pop]).2
          (exampleJIT true).block_) exampleMachine = some σ' ∧
      (emitOps (exampleJIT true)
          [StackOp.push (Value.arg 1 exampleObjType),
           StackOp.push (Value.arg 2 exampleObjType), StackOp.pop, StackOp.pop]).1.map
        (σ'.eval true) =
        lifoPops []
          ([StackOp.push (Value.arg 1 exampleObjType),
            StackOp.push (Value.arg 2 exampleObjType), StackOp.pop, StackOp.pop].map
            (StackOp.abstract true exampleMachine)) ∧
      (∀ vs : List Value,
        [StackOp.push (Value.arg 1 exampleObjType), StackOp.push (Value.arg 2 exampleObjType),
          StackOp.pop, StackOp.pop] =
          vs.map StackOp.push ++ List.replicate vs.length StackOp.pop →
        (emitOps (exampleJIT true)
            [StackOp.push (Value.arg 1 exampleObjType),
             StackOp.push (Value.arg 2 exampleObjType), StackOp.pop, StackOp.pop]).1.map
          (σ'.eval true) = (vs.map (exampleMachine.eval true)).reverse) :=
  ⟨by decide,
   stack_ops_lifo true (exampleJIT true) exampleMachine
     [StackOp.push (Value.arg 1 exampleObjType), StackOp.push (Value.arg 2 exampleObjType),
      StackOp.pop, StackOp.pop]
     (exampleJIT_wellFormed true)
     (by
       intro v hv
       simp only [pushedValues, List.mem_cons, List.mem_singleton, List.not_mem_nil,
         or_false] at hv
       rcases hv with rfl | rfl <;> exact ⟨trivial, rfl, rfl⟩)
     (by decide) (by decide)⟩

/-! ## The theorems at a concrete emitter and machine -/

theorem stack_push_pop_witness :
    ((Value.arg 1 (Ty.ptr (Ty.int 8))).getType.isPtr = true ∧
     exampleMachine.eval true (Value.arg 1 (Ty.ptr (Ty.int 8))) = some 77) ∧
    (let pushed := (exampleJIT true).stack_push (Value.arg 1 (Ty.ptr (Ty.int 8))) none
     let popped := pushed.stack_pop none
     ∃ σ', exec true (exampleJIT true).module_
         ((exampleJIT true).emitted popped.2 (exampleJIT true).block_) exampleMachine = some σ' ∧
       σ'.eval true popped.1 = some 77 ∧
       ∃ sp, exampleMachine.stackPtr true (exampleJIT true) = some sp ∧
         σ'.stackPtr true (exampleJIT true) = some sp) :=
  ⟨by decide,
   stack_push_pop true (exampleJIT true) exampleMachine (Value.arg 1 (Ty.ptr (Ty.int 8))) 77
     (exampleJIT_wellFormed true) trivial rfl (by decide)⟩

theorem stack_ptr_adjust_inverse_witness :
    (-2 ^ 31 ≤ (-3 : Int) ∧ (-3 : Int) < 2 ^ 31) ∧
    (let up := (exampleJIT true).stack_ptr_adjust (-3) none
     let down := up.2.stack_ptr_adjust (negInt (-3)) none
     ∃ σ', exec true (exampleJIT true).module_
         ((exampleJIT true).emitted down.2 (exampleJIT true).block_) exampleMachine = some σ' ∧
       ∃ sp, exampleMachine.stackPtr true (exampleJIT true) = some sp ∧
         σ'.stackPtr true (exampleJIT true) = some sp) :=
  ⟨by decide,
   stack_ptr_adjust_inverse true (exampleJIT true) exampleMachine (-3)
     (exampleJIT_wellFormed true) (by decide) (by decide) (Or.inl (by decide))⟩

theorem check_if_fixnum_fixnum_tag_witness :
    (Value.const (Ty.int 32) (-5)).getType = Ty.int 32 ∧
    (let tagged := (exampleJIT false).fixnum_tag (Value.const (Ty.int 32) (-5)) none
     let check := tagged.2.check_if_fixnum tagged.1
     ∃ σ', exec false (exampleJIT false).module_
         ((exampleJIT false).emitted check.2 (exampleJIT false).block_) exampleMachine = some σ' ∧
       σ'.eval false check.1 = some 1) :=
  ⟨rfl,
   check_if_fixnum_fixnum_tag false (exampleJIT false) exampleMachine
     (Value.const (Ty.int 32) (-5)) 32 (-5) (exampleJIT_wellFormed false) (Or.inl rfl) rfl rfl⟩

theorem check_if_fixnum_spec_witness :
    ((Value.arg 2 exampleObjType).getType.isPtr = true ∧
     exampleMachine.eval true (Value.arg 2 exampleObjType) = some 4660) ∧
    (let check := (exampleJIT true).check_if_fixnum (Value.arg 2 exampleObjType)
     ∃ σ', exec true (exampleJIT true).module_
         ((exampleJIT true).emitted check.2 (exampleJIT true).block_) exampleMachine = some σ' ∧
       σ'.eval true check.1 =
         some (if 4660 &&& TAG_FIXNUM_MASK.toNat = TAG_FIXNUM.toNat then 1 else 0) ∧
       (4660 % 2 = 0 → σ'.eval true check.1 = some 0)) :=
  ⟨by decide,
   check_if_fixnum_spec true (exampleJIT true) exampleMachine (Value.arg 2 exampleObjType) 4660
     (exampleJIT_wellFormed true) rfl (by decide)⟩

theorem check_type_bits_spec_witness :
    (gepType (exampleJIT true).module_ (Value.arg 1 exampleObjType).getType
        [Value.const (Ty.int 32) 0, Value.const (Ty.int 32) 0, Value.const (Ty.int 32) 0,
         Value.const (Ty.int 32) 0] = some (Ty.ptr (Ty.int 32)) ∧
     exampleMachine.eval true (Value.arg 1 exampleObjType) = some 77 ∧
     loadBytes true exampleMachine.mem 77 4 = 4613) ∧
    (let check := (exampleJIT true).check_type_bits (Value.arg 1 exampleObjType) 5
     let f := loadBytes true exampleMachine.mem 77 4
     ∃ σ', exec true (exampleJIT true).module_
         ((exampleJIT true).emitted check.2 (exampleJIT true).block_) exampleMachine = some σ' ∧
       σ'.eval true check.1 = some (if ((f &&& 0xFF : Nat) : Int) = 5 then 1 else 0) ∧
       f &&& 0xFF = f % 256) :=
  ⟨by decide,
   check_type_bits_spec true (exampleJIT true) exampleMachine (Value.arg 1 exampleObjType) 77 5
     (by decide) (by decide) (by decide) (by decide)⟩

/-! ## Blocks, the cursor and the type table -/

/-- C11: for every emitter state whose current block is one of the function's
blocks, two successive `new_block` calls return handles that differ from each
other and from the block that is current at the time of either call (the
current block being the same before, between and after the calls). -/
theorem new_block_fresh (j : JITOperations) (name₁ name₂ : String)
    (h : j.block_ < j.function_.blocks.length) :
    let first := j.new_block name₁
    let second := first.2.new_block name₂
    first.1 ≠ second.1 ∧
    first.1 ≠ j.current_block ∧ second.1 ≠ first.2.current_block ∧
    first.1 ≠ first.2.current_block ∧ second.1 ≠ j.current_block ∧
    first.2.current_block = j.current_block ∧ second.2.current_block = j.current_block := by
  intro first second
  have h1 : first.1 = j.function_.blocks.length := rfl
  have h2 : second.1 = j.function_.blocks.length + 1 := by
    simp [second, first, JITOperations.new_block]
  have h3 : first.2.current_block = j.block_ := rfl
  have h4 : second.2.current_block = j.block_ := rfl
  have h5 : j.current_block = j.block_ := rfl
  rw [h1, h2, h3, h4, h5]
  have hlt : j.block_ < j.function_.blocks.length + 1 := Nat.lt_succ_of_lt h
  exact ⟨Nat.ne_of_lt (Nat.lt_succ_self _), Nat.ne_of_gt h, Nat.ne_of_gt hlt, Nat.ne_of_gt h,
    Nat.ne_of_gt hlt, rfl, rfl⟩

theorem new_block_fresh_witness :
    (exampleJIT true).block_ < (exampleJIT true).function_.blocks.length ∧
    (let first := (exampleJIT true).new_block "continue"
     let second := first.2.new_block "continue"
     first.1 ≠ second.1 ∧
     first.1 ≠ (exampleJIT true).current_block ∧ second.1 ≠ first.2.current_block ∧
     first.1 ≠ first.2.current_block ∧ second.1 ≠ (exampleJIT true).current_block ∧
     first.2.current_block = (exampleJIT true).current_block ∧
     second.2.current_block = (exampleJIT true).current_block) :=
  ⟨by decide, new_block_fresh (exampleJIT true) "continue" "continue" (by decide)⟩

theorem upcast_block (j : JITOperations) (rec : Value) (name : String) :
    match j.upcast rec name with
    | .ok r => r.2.current_block = j.current_block
    | .error _ => True := by
  unfold JITOperations.upcast
  cases j.ptr_type name with
  | error e => trivial
  | ok t => rfl

/-- C12: `set_block b` makes `b` the current block, and `new_block` and every
emitting operation of the class (with or without an explicit block argument)
leave `current_block()` as it was. -/
theorem current_block_only_set_block (lp64 : Bool) (j : JITOperations) :
    (∀ bb, (j.set_block bb).current_block = bb) ∧
    (∀ name, (j.new_block name).2.current_block = j.current_block) ∧
    (∀ block, (j.stack_ptr block).2.current_block = j.current_block) ∧
    (∀ pos block, (j.set_stack_ptr pos block).current_block = j.current_block) ∧
    (∀ amount block, (j.stack_position amount block).2.current_block = j.current_block) ∧
    (∀ back block, (j.stack_back_position back block).2.current_block = j.current_block) ∧
    (∀ count block, (j.stack_objects count block).2.current_block = j.current_block) ∧
    (∀ amount block, (j.stack_ptr_adjust amount block).2.current_block = j.current_block) ∧
    (∀ count, (j.stack_remove count).current_block = j.current_block) ∧
    (∀ val block, (j.stack_push val block).current_block = j.current_block) ∧
    (∀ back block, (j.stack_back back block).2.current_block = j.current_block) ∧
    (∀ block, (j.stack_top block).2.current_block = j.current_block) ∧
    (∀ block, (j.stack_pop block).2.current_block = j.current_block) ∧
    (∀ obj block, (j.constant obj block).2.current_block = j.current_block) ∧
    (∀ obj block, (j.cast_int obj block).2.current_block = j.current_block) ∧
    (∀ obj block type, (j.tag_strip obj block type).2.current_block = j.current_block) ∧
    (∀ obj, (j.tag_strip32 obj).2.current_block = j.current_block) ∧
    (∀ obj block, (j.fixnum_tag obj block).2.current_block = j.current_block) ∧
    (∀ val, (j.check_if_fixnum val).2.current_block = j.current_block) ∧
    (∀ obj type, (j.check_type_bits obj type).2.current_block = j.current_block) ∧
    (∀ size tup, (j.get_tuple_size size tup).2.current_block = j.current_block) ∧
    (∀ obj offset, (j.get_object_slot lp64 obj offset).2.current_block = j.current_block) ∧
    (∀ ptr which name block, (j.ptr_gep ptr which name block).2.current_block =
      j.current_block) ∧
    (∀ rec name, match j.upcast rec name with
      | .ok r => r.2.current_block = j.current_block
      | .error _ => True) ∧
    (∀ rec idx name, (j.create_gep rec idx name).2.current_block = j.current_block) ∧
    (∀ ptr name, (j.create_load ptr name).2.current_block = j.current_block) ∧
    (∀ val ptr, (j.create_store val ptr).current_block = j.current_block) ∧
    (∀ kind left right name, (j.create_icmp kind left right name).2.current_block =
      j.current_block) ∧
    (∀ left right name, (j.create_equal left right name).2.current_block = j.current_block) ∧
    (∀ left right name, (j.create_less_than left right name).2.current_block =
      j.current_block) ∧
    (∀ left right name, (j.create_and left right name).2.current_block = j.current_block) ∧
    (∀ if_true if_false cmp,
      (j.create_conditional_branch if_true if_false cmp).current_block = j.current_block) ∧
    (∀ dest, (j.create_branch dest).current_block = j.current_block) ∧
    (∀ obj val, (j.write_barrier obj val).current_block = j.current_block) := by
  refine ⟨?_, ?_, ?_, ?_, ?_, ?_, ?_, ?_, ?_, ?_, ?_, ?_, ?_, ?_, ?_, ?_, ?_, ?_, ?_, ?_, ?_,
    ?_, ?_, fun rec name => upcast_block j rec name, ?_, ?_, ?_, ?_, ?_, ?_, ?_, ?_, ?_, ?_⟩ <;>
    intros <;>
    simp only [JITOperations.set_block, JITOperations.new_block, JITOperations.current_block,
      JITOperations.stack_ptr, JITOperations.set_stack_ptr, JITOperations.stack_position,
      JITOperations.stack_back_position, JITOperations.stack_objects,
      JITOperations.stack_ptr_adjust, JITOperations.stack_remove, JITOperations.stack_push,
      JITOperations.stack_back, JITOperations.stack_top, JITOperations.stack_pop,
      JITOperations.constant, JITOperations.cast_int, JITOperations.tag_strip,
      JITOperations.tag_strip32, JITOperations.fixnum_tag, JITOperations.check_if_fixnum,
      JITOperations.check_type_bits, JITOperations.get_tuple_size,
      JITOperations.get_object_slot, JITOperations.ptr_gep, JITOperations.upcast,
      JITOperations.create_gep, JITOperations.create_load, JITOperations.create_store,
      JITOperations.create_icmp, JITOperations.create_equal, JITOperations.create_less_than,
      JITOperations.create_and, JITOperations.create_conditional_branch,
      JITOperations.create_branch, JITOperations.write_barrier, Signature.call,
      JITOperations.CreateIntegerCast, JITOperations.CreateZExtOrBitCast,
      JITOperations.GetElementPtrInst, JITOperations.LoadInst, JITOperations.StoreInst,
      JITOperations.CastInst, JITOperations.BinaryOperator, JITOperations.ICmpInst,
      JITOperations.emit, JITOperations.emitVoid] <;>
    (repeat' split) <;> rfl

/-- C13 as stated fails for `type`: for the name "Missing", whose entry
"struct.rubinius::Missing" the type table lacks, `type` returns the null
lookup result; it does not fail. -/
theorem type_missing_returns_null :
    (exampleJIT true).module_.layout "struct.rubinius::Missing" = none ∧
    (exampleJIT true).type "Missing" = none ∧
    (exampleJIT true).ptr_type "Missing" =
      .error (Fatal.nullType "struct.rubinius::Missing") := by
  refine ⟨by decide, by decide, ?_⟩
  rfl

/-- C13, amended: for every type name whose entry "struct.rubinius::<name>" is
absent from the module's type table, `ptr_type` fails fatally and `type`
returns the null lookup result without failing; for a present name `type`
returns the table's descriptor and `ptr_type` a pointer to it. -/
theorem type_ptr_type_spec (j : JITOperations) (name : String) :
    match j.module_.layout ("struct.rubinius::" ++ name) with
    | none =>
      j.type name = none ∧
      j.ptr_type name = .error (Fatal.nullType ("struct.rubinius::" ++ name))
    | some _ =>
      j.type name = some (Ty.struct ("struct.rubinius::" ++ name)) ∧
      j.ptr_type name = .ok (Ty.ptr (Ty.struct ("struct.rubinius::" ++ name))) := by
  cases h : j.module_.layout ("struct.rubinius::" ++ name) <;>
    simp [JITOperations.type, JITOperations.ptr_type, Module.ptr_type, Module.getTypeByName,
      getUnqual, h]

/-! ## Where the stack pointer points -/

theorem stackPtr_eq (lp64 : Bool) (σ : Machine) (j : JITOperations) (s : Nat)
    (hj : StackTyped j s) : σ.stackPtr lp64 j = some (σ.slots s % 2 ^ ptrBits lp64) := by
  obtain ⟨h₂, h₅⟩ := hj
  simp [Machine.stackPtr, h₅, h₂, Ty.getElementType]

/-- C14 as stated fails: after `stack_push` of the value 77 with the stack
pointer at 4096, the stack pointer holds 4104 and the slot at 4104, the one it
addresses, holds 77; the slot immediately below that address, at 4096, holds 0. -/
theorem stack_push_not_one_past :
    ∃ σ', exec true (exampleJIT true).module_
        ((exampleJIT true).emitted
          ((exampleJIT true).stack_push (Value.arg 1 exampleObjType) none)
          (exampleJIT true).block_) exampleMachine = some σ' ∧
      exampleMachine.eval true (Value.arg 1 exampleObjType) = some 77 ∧
      σ'.stackPtr true (exampleJIT true) = some 4104 ∧
      loadBytes true σ'.mem 4104 (sizeofObjectPtr true) = 77 ∧
      loadBytes true σ'.mem (4104 - sizeofObjectPtr true) (sizeofObjectPtr true) = 0 := by
  refine ⟨_, rfl, ?_, ?_, ?_, ?_⟩ <;> decide

/-- C14, amended: after every `stack_push v` the stack pointer is one slot
above its old value and the slot it addresses is the one holding `v`: the
stack pointer addresses the last pushed element (the next free slot is the one
above it). -/
theorem stack_push_top (lp64 : Bool) (j : JITOperations) (σ : Machine) (v : Value) (x : Nat)
    (hj : j.WellFormed lp64) (hv : j.Defines v) (hty : v.getType.isPtr = true)
    (hval : σ.eval lp64 v = some x) :
    ∃ sp σ', σ.stackPtr lp64 j = some sp ∧
      exec lp64 j.module_ (j.emitted (j.stack_push v none) j.block_) σ = some σ' ∧
      σ'.stackPtr lp64 j = some (ofInt (ptrBits lp64) ((sp : Int) + (sizeofObjectPtr lp64 : Nat))) ∧
      loadBytes lp64 σ'.mem (ofInt (ptrBits lp64) ((sp : Int) + (sizeofObjectPtr lp64 : Nat)))
        (sizeofObjectPtr lp64) = x := by
  obtain ⟨-, h₂, -, -, s, h₅⟩ := hj
  have hst : StackTyped j s := ⟨h₂, h₅⟩
  obtain ⟨σ', hex, hslot, -, hmem, -, -⟩ := stack_push_exec lp64 j σ v x s hst hv hty hval
  have hx := eval_lt lp64 σ v x hval
  rw [isPtr_bits lp64 _ hty] at hx
  refine ⟨_, σ', stackPtr_eq lp64 σ j s hst, hex, ?_, ?_⟩
  · rw [stackPtr_eq lp64 σ' j s hst, hslot, ofInt_mod]
  · rw [hmem, hslot, loadBytes_storeBytes_same lp64 _ _ _ _ (sizeof_le lp64), pow_256_sizeof,
      Nat.mod_eq_of_lt hx]

/-- C16: for every machine state, `stack_pop` emits, in this order, the load
of the stack pointer, the load of the slot it addresses, and then the reload,
the step down by one slot and the store of the stack pointer; the code runs to
completion, the value returned is what the slot addressed by the stack pointer
held before, the stack pointer ends exactly one slot lower, and memory is
unchanged. -/
theorem stack_pop_spec (lp64 : Bool) (j : JITOperations) (σ : Machine)
    (hj : j.WellFormed lp64) :
    let popped := j.stack_pop none
    let n := j.function_.nextValue
    j.emitted popped.2 j.block_ =
      [Inst.Load n j.stack_top_ "stack_ptr",
       Inst.Load (n + 1) (Value.inst n (Ty.ptr j.ObjType)) "stack_load",
       Inst.Load (n + 2) j.stack_top_ "stack_ptr",
       Inst.GetElementPtr (n + 3) (Value.inst (n + 2) (Ty.ptr j.ObjType))
         [Value.const (Ty.int 32) (-1)] "stack_pos",
       Inst.Store (Value.inst (n + 3) (Ty.ptr j.ObjType)) j.stack_top_ false] ∧
    ∃ sp σ', σ.stackPtr lp64 j = some sp ∧
      exec lp64 j.module_ (j.emitted popped.2 j.block_) σ = some σ' ∧
      σ'.eval lp64 popped.1 = some (loadBytes lp64 σ.mem sp (sizeofObjectPtr lp64)) ∧
      σ'.stackPtr lp64 j =
        some (ofInt (ptrBits lp64) ((sp : Int) - (sizeofObjectPtr lp64 : Nat))) ∧
      σ'.mem = σ.mem := by
  obtain ⟨-, h₂, -, -, s, h₅⟩ := hj
  have hst : StackTyped j s := ⟨h₂, h₅⟩
  obtain ⟨σ', hex, hreg, hslot, -, hmem, -, -⟩ := stack_pop_exec lp64 j σ s hst
  obtain ⟨-, -, -, -, -, hres⟩ := stack_pop_emit j s hst
  refine ⟨?_, _, σ', stackPtr_eq lp64 σ j s hst, hex, ?_, ?_, hmem⟩
  · simp [JITOperations.stack_pop, JITOperations.stack_back,
      JITOperations.stack_back_position, JITOperations.stack_position,
      JITOperations.stack_ptr_adjust, JITOperations.set_stack_ptr, JITOperations.stack_ptr,
      JITOperations.GetElementPtrInst, JITOperations.LoadInst, JITOperations.StoreInst,
      JITOperations.emit, JITOperations.emitVoid, Function.append,
      JITOperations.emitted, h₂, h₅, gepType, Ty.getElementType, negInt, wrapInt]
  · rw [hres, h₂, eval_inst, hreg, bits_ptr, Nat.mod_eq_of_lt (loadBytes_ptr_lt lp64 _ _)]
  · rw [stackPtr_eq lp64 σ' j s hst, hslot, ofInt_mod]

/-- C17: for every `int` `back ≥ 0`, the code `stack_back back` emits runs to
completion, the value it returns is the content of the slot `back` positions
below the one the stack pointer addresses, and the stack pointer, every
function-local variable and memory are unchanged; `stack_top` is
`stack_back 0`. -/
theorem stack_back_spec (lp64 : Bool) (j : JITOperations) (σ : Machine) (back : Int)
    (hj : j.WellFormed lp64) (h0 : 0 ≤ back) (h1 : back < 2 ^ 31) :
    let peek := j.stack_back back none
    (∀ block, j.stack_top block = j.stack_back 0 block) ∧
    ∃ sp σ', σ.stackPtr lp64 j = some sp ∧
      exec lp64 j.module_ (j.emitted peek.2 j.block_) σ = some σ' ∧
      σ'.eval lp64 peek.1 =
        some (loadBytes lp64 σ.mem
          (ofInt (ptrBits lp64) ((sp : Int) - back * (sizeofObjectPtr lp64 : Nat)))
          (sizeofObjectPtr lp64)) ∧
      σ'.stackPtr lp64 j = some sp ∧ σ'.slots = σ.slots ∧ σ'.mem = σ.mem := by
  obtain ⟨-, h₂, -, -, s, h₅⟩ := hj
  have hst : StackTyped j s := ⟨h₂, h₅⟩
  obtain ⟨n1, n2, n3, -⟩ := negInt_range back (by omega) h1
  have hneg : negInt back = -back := n3 (by omega)
  have hs := toSigned_ofInt_32 (-back) (by omega) (by omega)
  intro peek
  refine ⟨fun block => by cases block <;> rfl, σ.slots s % 2 ^ ptrBits lp64, ?_⟩
  simp only [peek, stackPtr_eq lp64 _ j s hst]
  by_cases hb : back = 0
  · subst hb
    have : negInt 0 = 0 := by decide
    simp [JITOperations.stack_back, JITOperations.stack_back_position,
      JITOperations.stack_position, JITOperations.stack_ptr,
      JITOperations.LoadInst, JITOperations.emit, Function.append,
      JITOperations.emitted, h₂, h₅, this, Ty.getElementType]
    simp [exec, step, Ty.getElementType, Ty.storeSize, storeSize_ptr, Machine.stackPtr, h₅, h₂]
    rw [Nat.mod_eq_of_lt (loadBytes_ptr_lt lp64 _ _)]
    congr 1
    cases lp64 <;> simp [ofInt, ptrBits] <;> omega
  · have hnb : ¬ -back = 0 := by omega
    simp [JITOperations.stack_back, JITOperations.stack_back_position,
      JITOperations.stack_position, JITOperations.stack_ptr,
      JITOperations.GetElementPtrInst, JITOperations.LoadInst, JITOperations.emit,
      Function.append, JITOperations.emitted, h₂, h₅, hneg, hnb, hb, gepType,
      Ty.getElementType]
    simp [exec, step, gepAddr, Ty.allocSize, Ty.getElementType, Ty.storeSize, storeSize_ptr,
      Machine.stackPtr, h₅, h₂, hs]
    rw [Nat.mod_eq_of_lt (loadBytes_ptr_lt lp64 _ _), sub_eq_add_neg]

/-! ## The 32-bit decode and the dropped top bit -/

/-- C15, the code at the input `n = -5`: both 32-bit decodes of `fixnum_tag n`,
`tag_strip32` and `tag_strip` with the 32-bit result type, give the pattern
`2^31 - 5`, which read as a signed 32-bit integer is 2147483643, where the
decode of `n` is -5: the logical shift right has cleared the sign bit. -/
theorem tag_strip32_negative :
    (∃ σ', exec true (exampleJIT true).module_
        ((exampleJIT true).emitted
          (((exampleJIT true).fixnum_tag (Value.const (Ty.int 32) (-5)) none).2.tag_strip32
            ((exampleJIT true).fixnum_tag (Value.const (Ty.int 32) (-5)) none).1).2
          (exampleJIT true).block_) exampleMachine = some σ' ∧
      (σ'.eval true
        (((exampleJIT true).fixnum_tag (Value.const (Ty.int 32) (-5)) none).2.tag_strip32
          ((exampleJIT true).fixnum_tag (Value.const (Ty.int 32) (-5)) none).1).1).map
        (toSigned 32) = some 2147483643) ∧
    (∃ σ', exec true (exampleJIT true).module_
        ((exampleJIT true).emitted
          (((exampleJIT true).fixnum_tag (Value.const (Ty.int 32) (-5)) none).2.tag_strip
            ((exampleJIT true).fixnum_tag (Value.const (Ty.int 32) (-5)) none).1 none
            (some (Ty.int 32))).2
          (exampleJIT true).block_) exampleMachine = some σ' ∧
      (σ'.eval true
        (((exampleJIT true).fixnum_tag (Value.const (Ty.int 32) (-5)) none).2.tag_strip
          ((exampleJIT true).fixnum_tag (Value.const (Ty.int 32) (-5)) none).1 none
          (some (Ty.int 32))).1).map
        (toSigned 32) = some 2147483643) := by
  refine ⟨⟨_, rfl, ?_⟩, ⟨_, rfl, ?_⟩⟩ <;> decide

/-- The sibling paths at the same input `n = -5`: `tag_strip` with its default
31-bit result type decodes `fixnum_tag n` to -5, and `tag_strip` with a 64-bit
result type ends in the sign extension its `isSigned = true` asks for, yet
yields 2147483643, the shift before it having cleared bit 31. -/
theorem tag_strip_signed_paths :
    (∃ σ', exec true (exampleJIT true).module_
        ((exampleJIT true).emitted
          (((exampleJIT true).fixnum_tag (Value.const (Ty.int 32) (-5)) none).2.tag_strip
            ((exampleJIT true).fixnum_tag (Value.const (Ty.int 32) (-5)) none).1 none none).2
          (exampleJIT true).block_) exampleMachine = some σ' ∧
      (σ'.eval true
        (((exampleJIT true).fixnum_tag (Value.const (Ty.int 32) (-5)) none).2.tag_strip
          ((exampleJIT true).fixnum_tag (Value.const (Ty.int 32) (-5)) none).1 none none).1).map
        (toSigned 31) = some (-5)) ∧
    (((exampleJIT true).emitted
        (((exampleJIT true).fixnum_tag (Value.const (Ty.int 32) (-5)) none).2.tag_strip
          ((exampleJIT true).fixnum_tag (Value.const (Ty.int 32) (-5)) none).1 none
          (some (Ty.int 64))).2
        (exampleJIT true).block_).getLast? =
      some (Inst.Cast 6 CastOp.SExt (Value.inst 5 (Ty.int 32)) (Ty.int 64) "stripped")) ∧
    (∃ σ', exec true (exampleJIT true).module_
        ((exampleJIT true).emitted
          (((exampleJIT true).fixnum_tag (Value.const (Ty.int 32) (-5)) none).2.tag_strip
            ((exampleJIT true).fixnum_tag (Value.const (Ty.int 32) (-5)) none).1 none
            (some (Ty.int 64))).2
          (exampleJIT true).block_) exampleMachine = some σ' ∧
      (σ'.eval true
        (((exampleJIT true).fixnum_tag (Value.const (Ty.int 32) (-5)) none).2.tag_strip
          ((exampleJIT true).fixnum_tag (Value.const (Ty.int 32) (-5)) none).1 none
          (some (Ty.int 64))).1).map
        (toSigned 64) = some 2147483643) := by
  refine ⟨⟨_, rfl, ?_⟩, ?_, ⟨_, rfl, ?_⟩⟩ <;> decide

/-- How far the defect of the 32-bit decodes reaches: for every integer `n`
with `-2^30 ≤ n < 2^30`, held by a 32-bit or 31-bit operand, the code of
`fixnum_tag` followed by the code of `tag_strip32`, and likewise followed by
the code of `tag_strip` with the 32-bit result type, yields a 32-bit result
that read as a signed integer is `n` when `n ≥ 0` but `n + 2^31` for every
`n < 0`. -/
theorem tag_strip32_fixnum_tag (lp64 : Bool) (j : JITOperations) (σ : Machine) (obj : Value)
    (w : Nat) (n : Int) (hj : j.WellFormed lp64) (hw : w = 32 ∨ w = 31)
    (hty : obj.getType = Ty.int w) (hval : σ.eval lp64 obj = some (ofInt w n))
    (h1 : -2 ^ 30 ≤ n) (h2 : n < 2 ^ 30) :
    let tagged := j.fixnum_tag obj none
    let short := tagged.2.tag_strip32 tagged.1
    let typed := tagged.2.tag_strip tagged.1 none (some (Ty.int 32))
    (short.1.getType = Ty.int 32 ∧
     ∃ σ', exec lp64 j.module_ (j.emitted short.2 j.block_) σ = some σ' ∧
       (σ'.eval lp64 short.1).map (toSigned 32) = some (if 0 ≤ n then n else n + 2 ^ 31)) ∧
    (typed.1.getType = Ty.int 32 ∧
     ∃ σ', exec lp64 j.module_ (j.emitted typed.2 j.block_) σ = some σ' ∧
       (σ'.eval lp64 typed.1).map (toSigned 32) = some (if 0 ≤ n then n else n + 2 ^ 31)) := by
  obtain ⟨-, h₂, -, h₄, -⟩ := hj
  have hx := ofInt_cases_31_32 w hw n h1 h2
  rcases hw with rfl | rfl <;>
  · simp [JITOperations.fixnum_tag, JITOperations.tag_strip, JITOperations.tag_strip32,
      JITOperations.CreateZExtOrBitCast,
      JITOperations.CreateIntegerCast, JITOperations.CastInst, JITOperations.BinaryOperator,
      JITOperations.emit, Function.append, JITOperations.emitted, hty, h₂, h₄,
      Ty.getPrimitiveSizeInBits]
    simp [exec, step, hval, castVal, binVal, shl_or_one, Nat.shiftRight_eq_div_pow]
    generalize ofInt _ n = x at hx
    unfold toSigned
    rcases ptrBits_cases lp64 with h | h <;> rw [h] <;> split at hx <;>
      split_ifs <;> omega

theorem xor_top_bit_low (x : Nat) (h : x < 2 ^ 31) : x ^^^ 2 ^ 31 = x + 2 ^ 31 := by
  apply Nat.eq_of_testBit_eq
  intro i
  rw [Nat.testBit_xor, Nat.testBit_two_pow, Nat.add_comm]
  rcases Nat.lt_trichotomy i 31 with hi | hi | hi
  · rw [Nat.testBit_two_pow_add_gt hi]
    have : ¬ (31 = i) := by omega
    simp [this]
  · subst hi
    rw [Nat.testBit_two_pow_add_eq]
    have : x.testBit 31 = false := Nat.testBit_lt_two_pow h
    simp [this]
  · have hx : x.testBit i = false :=
      Nat.testBit_lt_two_pow (Nat.lt_of_lt_of_le h (Nat.pow_le_pow_right (by omega) (by omega)))
    have hs : (2 ^ 31 + x).testBit i = false :=
      Nat.testBit_lt_two_pow (Nat.lt_of_lt_of_le (show 2 ^ 31 + x < 2 ^ 32 by omega)
        (Nat.pow_le_pow_right (by omega) (by omega)))
    have : ¬ (31 = i) := by omega
    rw [hx, hs]
    simp [this]

theorem xor_top_bit (x : Nat) (h : x < 2 ^ 32) :
    x ^^^ 2 ^ 31 = if x < 2 ^ 31 then x + 2 ^ 31 else x - 2 ^ 31 := by
  split_ifs with hlt
  · exact xor_top_bit_low x hlt
  · have hy := xor_top_bit_low (x - 2 ^ 31) (by omega)
    have hx : x = (x - 2 ^ 31) ^^^ 2 ^ 31 := by rw [hy]; omega
    conv_lhs => rw [hx]
    rw [Nat.xor_assoc, Nat.xor_self, Nat.xor_zero]

/-- The word `fixnum_tag` computes from a 32-bit operand: twice its value, reduced to 32 bits, plus the tag. -/
theorem fixnum_tag_value (lp64 : Bool) (j : JITOperations) (σ : Machine) (obj : Value)
    (x : Nat) (hj : j.WellFormed lp64) (hty : obj.getType = Ty.int 32)
    (hval : σ.eval lp64 obj = some x) :
    ∃ σ', exec lp64 j.module_ (j.emitted (j.fixnum_tag obj none).2 j.block_) σ = some σ' ∧
      σ'.eval lp64 (j.fixnum_tag obj none).1 = some (x * 2 % 2 ^ 32 + 1) := by
  obtain ⟨-, h₂, -, -, -⟩ := hj
  simp [JITOperations.fixnum_tag, JITOperations.CreateZExtOrBitCast,
    JITOperations.CastInst, JITOperations.BinaryOperator,
    JITOperations.emit, Function.append, JITOperations.emitted, hty, h₂,
    Ty.getPrimitiveSizeInBits]
  simp [exec, step, hval, castVal, binVal, shl_or_one]
  rcases ptrBits_cases lp64 with h | h <;> rw [h] <;> omega

theorem fixnumWord_eq (lp64 : Bool) (n : Int) :
    fixnumWord lp64 n = some (ofInt 32 n * 2 % 2 ^ 32 + 1) := by
  obtain ⟨σ', h1, h2⟩ := fixnum_tag_value lp64 (exampleJIT lp64) exampleMachine
    (Value.const (Ty.int 32) n) (ofInt 32 n) (exampleJIT_wellFormed lp64) rfl rfl
  simp only [fixnumWord, h1, Option.some_bind, h2]

/-- C19 as stated fails in its last part: no two distinct 32-bit integers that
are both outside the small-integer range `-2^30 ≤ n < 2^30` get the same
tagged word from `fixnum_tag`, on either pointer width. -/
theorem fixnum_tag_no_collision_outside :
    ¬ ∃ (lp64 : Bool) (n m : Int),
      (-2 ^ 31 ≤ n ∧ n < 2 ^ 31) ∧ (-2 ^ 31 ≤ m ∧ m < 2 ^ 31) ∧ n ≠ m ∧
      ¬ (-2 ^ 30 ≤ n ∧ n < 2 ^ 30) ∧ ¬ (-2 ^ 30 ≤ m ∧ m < 2 ^ 30) ∧
      fixnumWord lp64 n = fixnumWord lp64 m := by
  rintro ⟨lp64, n, m, ⟨hn1, hn2⟩, ⟨hm1, hm2⟩, hne, hn, hm, h⟩
  rw [fixnumWord_eq, fixnumWord_eq, Option.some.injEq] at h
  have hx := ofInt32_cases n hn1 hn2
  have hy := ofInt32_cases m hm1 hm2
  generalize ofInt 32 n = x at hx h
  generalize ofInt 32 m = y at hy h
  split at hx <;> split at hy <;> omega

/-- C19, amended: `fixnum_tag` drops the top bit of its 32-bit input: for every
32-bit pattern `x`, the code of `fixnum_tag` run on an operand holding `x` and
on an operand holding `x XOR 2^31` gives the same tagged word; the two inputs
are distinct and exactly one of them, read as a signed integer, lies in the
small-integer range, so every 32-bit integer outside the range encodes to the
tagged reference of a different integer inside it. -/
theorem fixnum_tag_drops_top_bit (lp64 : Bool) (j : JITOperations) (σ : Machine)
    (obj₁ obj₂ : Value) (x : Nat) (hj : j.WellFormed lp64)
    (hty₁ : obj₁.getType = Ty.int 32) (hty₂ : obj₂.getType = Ty.int 32)
    (hval₁ : σ.eval lp64 obj₁ = some x) (hval₂ : σ.eval lp64 obj₂ = some (x ^^^ 2 ^ 31)) :
    let t₁ := j.fixnum_tag obj₁ none
    let t₂ := j.fixnum_tag obj₂ none
    (∃ σ₁ σ₂ word,
      exec lp64 j.module_ (j.emitted t₁.2 j.block_) σ = some σ₁ ∧
      exec lp64 j.module_ (j.emitted t₂.2 j.block_) σ = some σ₂ ∧
      σ₁.eval lp64 t₁.1 = some word ∧ σ₂.eval lp64 t₂.1 = some word) ∧
    x ≠ x ^^^ 2 ^ 31 ∧
    ((-2 ^ 30 ≤ toSigned 32 x ∧ toSigned 32 x < 2 ^ 30) ↔
      ¬ (-2 ^ 30 ≤ toSigned 32 (x ^^^ 2 ^ 31) ∧ toSigned 32 (x ^^^ 2 ^ 31) < 2 ^ 30)) := by
  have hx := eval_lt lp64 σ obj₁ x hval₁
  rw [hty₁, bits_int] at hx
  have hxor := xor_top_bit x hx
  obtain ⟨σ₁, he₁, hv₁⟩ := fixnum_tag_value lp64 j σ obj₁ x hj hty₁ hval₁
  obtain ⟨σ₂, he₂, hv₂⟩ := fixnum_tag_value lp64 j σ obj₂ _ hj hty₂ hval₂
  generalize x ^^^ 2 ^ 31 = y at hxor hv₂ hval₂
  refine ⟨⟨σ₁, σ₂, _, he₁, he₂, hv₁, ?_⟩, ?_, ?_⟩
  · rw [hv₂, Option.some.injEq]
    split_ifs at hxor <;> omega
  · split_ifs at hxor <;> omega
  · unfold toSigned
    split_ifs at hxor <;> split_ifs <;> omega

theorem fixnum_tag_drops_top_bit_witness :
    ((Value.const (Ty.int 32) (2 ^ 30)).getType = Ty.int 32 ∧
     exampleMachine.eval true (Value.const (Ty.int 32) (2 ^ 30)) = some (2 ^ 30) ∧
     exampleMachine.eval true (Value.const (Ty.int 32) (-2 ^ 30)) =
       some (2 ^ 30 ^^^ 2 ^ 31)) ∧
    (let t₁ := (exampleJIT true).fixnum_tag (Value.const (Ty.int 32) (2 ^ 30)) none
     let t₂ := (exampleJIT true).fixnum_tag (Value.const (Ty.int 32) (-2 ^ 30)) none
     (∃ σ₁ σ₂ word,
       exec true (exampleJIT true).module_
         ((exampleJIT true).emitted t₁.2 (exampleJIT true).block_) exampleMachine = some σ₁ ∧
       exec true (exampleJIT true).module_
         ((exampleJIT true).emitted t₂.2 (exampleJIT true).block_) exampleMachine = some σ₂ ∧
       σ₁.eval true t₁.1 = some word ∧ σ₂.eval true t₂.1 = some word) ∧
     (2 ^ 30 : Nat) ≠ 2 ^ 30 ^^^ 2 ^ 31 ∧
     ((-2 ^ 30 ≤ toSigned 32 (2 ^ 30) ∧ toSigned 32 (2 ^ 30) < 2 ^ 30) ↔
       ¬ (-2 ^ 30 ≤ toSigned 32 (2 ^ 30 ^^^ 2 ^ 31) ∧
          toSigned 32 (2 ^ 30 ^^^ 2 ^ 31) < 2 ^ 30))) :=
  ⟨by decide,
   fixnum_tag_drops_top_bit true (exampleJIT true) exampleMachine
     (Value.const (Ty.int 32) (2 ^ 30)) (Value.const (Ty.int 32) (-2 ^ 30)) (2 ^ 30)
     (exampleJIT_wellFormed true) rfl rfl (by decide) (by decide)⟩

/-! ## Explicit block arguments -/

/-- C18: when one of the operations with a block argument (`stack_ptr`,
`set_stack_ptr`, `stack_position`, `stack_back_position`, `stack_ptr_adjust`,
`stack_push`, `stack_back`, `stack_pop`, `cast_int`, `tag_strip`, `fixnum_tag`)
is given an explicit block `b` other than the current one, every instruction
it emits is appended to `b` (all other blocks keep their content and the old
content of `b` is a prefix of the new), none is appended to the current block,
and the current block is unchanged. -/
theorem explicit_block_only (j : JITOperations) (b : BasicBlock) (hb : b ≠ j.block_) :
    (j.EmitsOnlyInto (j.stack_ptr (some b)).2 b) ∧
    (∀ pos, j.EmitsOnlyInto (j.set_stack_ptr pos (some b)) b) ∧
    (∀ amount, j.EmitsOnlyInto (j.stack_position amount (some b)).2 b) ∧
    (∀ back, j.EmitsOnlyInto (j.stack_back_position back (some b)).2 b) ∧
    (∀ amount, j.EmitsOnlyInto (j.stack_ptr_adjust amount (some b)).2 b) ∧
    (∀ val, j.EmitsOnlyInto (j.stack_push val (some b)) b) ∧
    (∀ back, j.EmitsOnlyInto (j.stack_back back (some b)).2 b) ∧
    (j.EmitsOnlyInto (j.stack_pop (some b)).2 b) ∧
    (∀ obj, j.EmitsOnlyInto (j.cast_int obj (some b)).2 b) ∧
    (∀ obj type, j.EmitsOnlyInto (j.tag_strip obj (some b) type).2 b) ∧
    (∀ obj, j.EmitsOnlyInto (j.fixnum_tag obj (some b)).2 b) := by
  have hb' : ¬ j.block_ = b := fun h => hb h.symm
  refine ⟨?_, ?_, ?_, ?_, ?_, ?_, ?_, ?_, ?_, ?_, ?_⟩ <;> intros <;>
    refine ⟨fun b' hb'' => ?_, ?_, ?_, ?_⟩ <;>
    simp only [JITOperations.current_block,
      JITOperations.stack_ptr, JITOperations.set_stack_ptr, JITOperations.stack_position,
      JITOperations.stack_back_position,
      JITOperations.stack_ptr_adjust, JITOperations.stack_push,
      JITOperations.stack_back, JITOperations.stack_pop,
      JITOperations.cast_int, JITOperations.tag_strip,
      JITOperations.fixnum_tag,
      JITOperations.CreateIntegerCast, JITOperations.CreateZExtOrBitCast,
      JITOperations.GetElementPtrInst, JITOperations.LoadInst, JITOperations.StoreInst,
      JITOperations.CastInst, JITOperations.BinaryOperator,
      JITOperations.emit, JITOperations.emitVoid, Option.getD_some] <;>
    (try split_ifs) <;>
    first
      | contradiction
      | simp [Function.append, JITOperations.emitted, hb', *]

theorem explicit_block_only_witness :
    (1 : BasicBlock) ≠ (exampleJIT true).block_ ∧
    (((exampleJIT true).EmitsOnlyInto ((exampleJIT true).stack_ptr (some 1)).2 1) ∧
     (∀ pos, (exampleJIT true).EmitsOnlyInto ((exampleJIT true).set_stack_ptr pos (some 1)) 1) ∧
     (∀ amount,
       (exampleJIT true).EmitsOnlyInto ((exampleJIT true).stack_position amount (some 1)).2 1) ∧
     (∀ back,
       (exampleJIT true).EmitsOnlyInto
         ((exampleJIT true).stack_back_position back (some 1)).2 1) ∧
     (∀ amount,
       (exampleJIT true).EmitsOnlyInto
         ((exampleJIT true).stack_ptr_adjust amount (some 1)).2 1) ∧
     (∀ val, (exampleJIT true).EmitsOnlyInto ((exampleJIT true).stack_push val (some 1)) 1) ∧
     (∀ back, (exampleJIT true).EmitsOnlyInto ((exampleJIT true).stack_back back (some 1)).2 1) ∧
     ((exampleJIT true).EmitsOnlyInto ((exampleJIT true).stack_pop (some 1)).2 1) ∧
     (∀ obj, (exampleJIT true).EmitsOnlyInto ((exampleJIT true).cast_int obj (some 1)).2 1) ∧
     (∀ obj type,
       (exampleJIT true).EmitsOnlyInto ((exampleJIT true).tag_strip obj (some 1) type).2 1) ∧
     (∀ obj, (exampleJIT true).EmitsOnlyInto ((exampleJIT true).fixnum_tag obj (some 1)).2 1)) :=
  ⟨by decide, explicit_block_only (exampleJIT true) 1 (by decide)⟩

theorem stack_push_top_witness :
    ((Value.arg 1 exampleObjType).getType.isPtr = true ∧
     exampleMachine.eval true (Value.arg 1 exampleObjType) = some 77) ∧
    ∃ sp σ', exampleMachine.stackPtr true (exampleJIT true) = some sp ∧
      exec true (exampleJIT true).module_
        ((exampleJIT true).emitted
          ((exampleJIT true).stack_push (Value.arg 1 exampleObjType) none)
          (exampleJIT true).block_) exampleMachine = some σ' ∧
      σ'.stackPtr true (exampleJIT true) =
        some (ofInt (ptrBits true) ((sp : Int) + (sizeofObjectPtr true : Nat))) ∧
      loadBytes true σ'.mem (ofInt (ptrBits true) ((sp : Int) + (sizeofObjectPtr true : Nat)))
        (sizeofObjectPtr true) = 77 :=
  ⟨by decide,
   stack_push_top true (exampleJIT true) exampleMachine (Value.arg 1 exampleObjType) 77
     (exampleJIT_wellFormed true) trivial rfl (by decide)⟩

theorem stack_pop_spec_witness :
    (exampleJIT false).WellFormed false ∧
    (let popped := (exampleJIT false).stack_pop none
     let n := (exampleJIT false).function_.nextValue
     (exampleJIT false).emitted popped.2 (exampleJIT false).block_ =
       [Inst.Load n (exampleJIT false).stack_top_ "stack_ptr",
        Inst.Load (n + 1) (Value.inst n (Ty.ptr (exampleJIT false).ObjType)) "stack_load",
        Inst.Load (n + 2) (exampleJIT false).stack_top_ "stack_ptr",
        Inst.GetElementPtr (n + 3) (Value.inst (n + 2) (Ty.ptr (exampleJIT false).ObjType))
          [Value.const (Ty.int 32) (-1)] "stack_pos",
        Inst.Store (Value.inst (n + 3) (Ty.ptr (exampleJIT false).ObjType))
          (exampleJIT false).stack_top_ false] ∧
     ∃ sp σ', exampleMachine.stackPtr false (exampleJIT false) = some sp ∧
       exec false (exampleJIT false).module_
         ((exampleJIT false).emitted popped.2 (exampleJIT false).block_) exampleMachine =
           some σ' ∧
       σ'.eval false popped.1 = some (loadBytes false exampleMachine.mem sp (sizeofObjectPtr false)) ∧
       σ'.stackPtr false (exampleJIT false) =
         some (ofInt (ptrBits false) ((sp : Int) - (sizeofObjectPtr false : Nat))) ∧
       σ'.mem = exampleMachine.mem) :=
  ⟨exampleJIT_wellFormed false,
   stack_pop_spec false (exampleJIT false) exampleMachine (exampleJIT_wellFormed false)⟩

theorem stack_back_spec_witness :
    ((0 : Int) ≤ 2 ∧ (2 : Int) < 2 ^ 31) ∧
    (let peek := (exampleJIT true).stack_back 2 none
     (∀ block, (exampleJIT true).stack_top block = (exampleJIT true).stack_back 0 block) ∧
     ∃ sp σ', exampleMachine.stackPtr true (exampleJIT true) = some sp ∧
       exec true (exampleJIT true).module_
         ((exampleJIT true).emitted peek.2 (exampleJIT true).block_) exampleMachine = some σ' ∧
       σ'.eval true peek.1 =
         some (loadBytes true exampleMachine.mem
           (ofInt (ptrBits true) ((sp : Int) - 2 * (sizeofObjectPtr true : Nat)))
           (sizeofObjectPtr true)) ∧
       σ'.stackPtr true (exampleJIT true) = some sp ∧ σ'.slots = exampleMachine.slots ∧
       σ'.mem = exampleMachine.mem) :=
  ⟨by decide,
   stack_back_spec true (exampleJIT true) exampleMachine 2 (exampleJIT_wellFormed true)
     (by decide) (by decide)⟩

end rubinius
